import Mathlib

/-!
Verification of the `rotateflip` and `imageutil` packages of `ncruces/go-image`.

The Go code is shallowly embedded: byte buffers (Go `[]uint8` slices) become
total functions `Int → Nat` (byte values are never arithmetically combined,
only copied, so modelling them as `Nat` is faithful); Go `int` becomes `Int`
(the claims are not about 64-bit overflow); Go's truncating integer division
`/` becomes `Int.tdiv` (written `godiv` below); loops become structural
recursion on the (non-negative) iteration count, carrying the loop-local
accumulators exactly as the source does.
-/

namespace rotateflip

/-- A byte buffer: address to byte value.  Go slices are modelled as total
functions; slice re-slicing (`s[i:]`) becomes address shifting. -/
abbrev Buf := Int → Nat

/-- Go's `copy(dst[dstPos:], src[srcPos:srcPos+len])`: copies `len` bytes
(no-op for `len ≤ 0`). -/
def writeBytes (dst : Buf) (dstPos : Int) (src : Buf) (srcPos : Int) (len : Int) : Buf :=
  fun a => if dstPos ≤ a ∧ a < dstPos + len then src (srcPos + (a - dstPos)) else dst a

/-- Go's `image.Rectangle`: min inclusive, max exclusive. -/
structure Rect where
  minX : Int
  minY : Int
  maxX : Int
  maxY : Int
deriving DecidableEq

def Rect.Dx (r : Rect) : Int := r.maxX - r.minX

def Rect.Dy (r : Rect) : Int := r.maxY - r.minY

/-- `image.Point{x,y}.In(r)`. -/
def Rect.Mem (r : Rect) (x y : Int) : Prop :=
  r.minX ≤ x ∧ x < r.maxX ∧ r.minY ≤ y ∧ y < r.maxY

instance (r : Rect) (x y : Int) : Decidable (r.Mem x y) := by
  unfold Rect.Mem; infer_instance

/-- Go's truncating (toward zero) integer division, used by all `/` on `int`
in the Go source and the Go standard library `image` package. -/
def godiv (a b : Int) : Int := Int.tdiv a b

/-- `parity`: `op = 0226 >> uint8(op); return op&1 != 0` (0226 octal = 150). -/
def parity (op : Nat) : Bool := (150 >>> op) &&& 1 != 0

/-- The inner pixel loop of `rotateFlip` (the generic branch):
`copy(dst[dst_pixel:], src[src_pixel:src_pixel+bpp]); dst_pixel += dst_x_offset;
src_pixel += bpp`, iterated `src_width` times. -/
def copyPixels (dst : Buf) (src : Buf) (dstPixel srcPixel dstXOffset bpp : Int) :
    Nat → Buf
  | 0 => dst
  | n + 1 =>
      copyPixels (writeBytes dst dstPixel src srcPixel bpp) src
        (dstPixel + dstXOffset) (srcPixel + bpp) dstXOffset bpp n

/-- The row loop of `rotateFlip`'s contiguous branch:
`copy(dst[dst_row:], src[src_row:src_row+src_width*bpp]); dst_row += dst_y_offset;
src_row += src_stride`, iterated `src_height` times. -/
def copyRowsContig (dst : Buf) (src : Buf) (dstRow srcRow dstYOffset srcStride rowLen : Int) :
    Nat → Buf
  | 0 => dst
  | n + 1 =>
      copyRowsContig (writeBytes dst dstRow src srcRow rowLen) src
        (dstRow + dstYOffset) (srcRow + srcStride) dstYOffset srcStride rowLen n

/-- The row loop of `rotateFlip`'s generic branch. -/
def copyRowsPixel (dst : Buf) (src : Buf) (dstRow srcRow dstYOffset srcStride dstXOffset bpp : Int)
    (srcWidth : Nat) : Nat → Buf
  | 0 => dst
  | n + 1 =>
      copyRowsPixel (copyPixels dst src dstRow srcRow dstXOffset bpp srcWidth) src
        (dstRow + dstYOffset) (srcRow + srcStride) dstYOffset srcStride dstXOffset bpp srcWidth n

/-- Offset/start computation shared by `rotateFlip` and its per-pixel variant:
returns `(dst_row, dst_x_offset, dst_y_offset)` exactly as computed from
`rotate := op&1 != 0`, `flip_y := op&2 != 0`, `flip_x := parity(op)`. -/
def rotateFlipOffsets (dstStride dstWidth dstHeight : Int) (op : Nat) (bpp : Int) :
    Int × Int × Int :=
  let rotate := op &&& 1 != 0
  let flipY := op &&& 2 != 0
  let flipX := parity op
  let dstRow : Int :=
    (if flipX then bpp * (dstWidth - 1) else 0) +
    (if flipY then dstStride * (dstHeight - 1) else 0)
  let dstXOffset : Int :=
    if rotate then (if flipY then -dstStride else dstStride)
    else (if flipX then -bpp else bpp)
  let dstYOffset : Int :=
    if rotate then (if flipX then -bpp else bpp)
    else (if flipY then -dstStride else dstStride)
  (dstRow, dstXOffset, dstYOffset)

/-- `rotateFlip` from the source: strided buffer copier with a contiguous
row-copy branch when `dst_x_offset == bpp` and a generic per-pixel branch
otherwise. -/
def rotateFlip (dst : Buf) (dstStride dstWidth dstHeight : Int) (src : Buf)
    (srcStride srcWidth srcHeight : Int) (op : Nat) (bpp : Int) : Buf :=
  let o := rotateFlipOffsets dstStride dstWidth dstHeight op bpp
  if o.2.1 = bpp then
    copyRowsContig dst src o.1 0 o.2.2 srcStride (srcWidth * bpp) srcHeight.toNat
  else
    copyRowsPixel dst src o.1 0 o.2.2 srcStride o.2.1 bpp srcWidth.toNat srcHeight.toNat

/-- `rotateFlip` with the contiguous branch removed: always takes the generic
per-pixel path.  Used to state the branch-equivalence property. -/
def rotateFlipPerPixel (dst : Buf) (dstStride dstWidth dstHeight : Int) (src : Buf)
    (srcStride srcWidth srcHeight : Int) (op : Nat) (bpp : Int) : Buf :=
  let o := rotateFlipOffsets dstStride dstWidth dstHeight op bpp
  copyRowsPixel dst src o.1 0 o.2.2 srcStride o.2.1 bpp srcWidth.toNat srcHeight.toNat

/-- `rotateBounds(bounds, op)`: zero-based destination rectangle, with the
axes swapped when the operation is a 90°-family rotation. -/
def rotateBounds (bounds : Rect) (op : Nat) : Rect :=
  if op &&& 1 != 0 then ⟨0, 0, bounds.Dy, bounds.Dx⟩
  else ⟨0, 0, bounds.Dx, bounds.Dy⟩

/-- `image.YCbCrSubsampleRatio`. -/
inductive SubsampleRatio where
  | sr444
  | sr422
  | sr420
  | sr440
  | sr411
  | sr410
deriving DecidableEq

/-- `rotateYCbCrSubsampleRatio(subsampleRatio, bounds, op)`.  The Go guard
`(a|b)&1 != 0` ("some edge is odd") is rendered as a disjunction of parity
tests, and the `(value, ok)` return as an `Option`. -/
def rotateYCbCrSubsampleRatio (sr : SubsampleRatio) (bounds : Rect) (op : Nat) :
    Option SubsampleRatio :=
  match sr with
  | .sr444 => some sr
  | .sr420 =>
      if bounds.minX % 2 ≠ 0 ∨ bounds.maxX % 2 ≠ 0 ∨
          bounds.minY % 2 ≠ 0 ∨ bounds.maxY % 2 ≠ 0 then none
      else some sr
  | .sr422 =>
      if bounds.minX % 2 ≠ 0 ∨ bounds.maxX % 2 ≠ 0 then none
      else if op &&& 1 != 0 then some .sr440
      else some sr
  | .sr440 =>
      if bounds.minY % 2 ≠ 0 ∨ bounds.maxY % 2 ≠ 0 then none
      else if op &&& 1 != 0 then some .sr422
      else some sr
  | .sr411 | .sr410 =>
      if bounds.minX % 4 ≠ 0 ∨ bounds.maxX % 4 ≠ 0 then none
      else if bounds.minY % 2 ≠ 0 ∨ bounds.maxY % 2 ≠ 0 then none
      else if op &&& 1 != 0 then none
      else some sr

/-- `subsampledBounds(bounds, subsampleRatio)`: chroma-plane rectangle for a
luma rectangle (floor the min edge, ceil the max edge, in Go's truncating
arithmetic). -/
def subsampledBounds (bounds : Rect) (sr : SubsampleRatio) : Rect :=
  match sr with
  | .sr444 => bounds
  | .sr440 =>
      { bounds with minY := godiv (bounds.minY + 0) 2, maxY := godiv (bounds.maxY + 1) 2 }
  | .sr420 =>
      { bounds with
        minY := godiv (bounds.minY + 0) 2, maxY := godiv (bounds.maxY + 1) 2,
        minX := godiv (bounds.minX + 0) 2, maxX := godiv (bounds.maxX + 1) 2 }
  | .sr422 =>
      { bounds with minX := godiv (bounds.minX + 0) 2, maxX := godiv (bounds.maxX + 1) 2 }
  | .sr410 =>
      { bounds with
        minY := godiv (bounds.minY + 0) 2, maxY := godiv (bounds.maxY + 1) 2,
        minX := godiv (bounds.minX + 0) 4, maxX := godiv (bounds.maxX + 3) 4 }
  | .sr411 =>
      { bounds with minX := godiv (bounds.minX + 0) 4, maxX := godiv (bounds.maxX + 3) 4 }

/-! Model of the Go standard library `image` package collaborator: packed
(single-plane) images, planar YCbCr / NYCbCrA images, their constructors,
pixel-offset arithmetic, and the bounds-checked `At` accessors.  Field names
and formulas follow the Go standard library. -/

/-- A packed single-plane image (`image.Alpha`, `image.Gray`, `image.RGBA`,
…): `Pix` buffer, `Stride`, `Rect`.  The bytes-per-pixel count is supplied by
each operation. -/
structure Packed where
  pix : Buf
  stride : Int
  rect : Rect

/-- `PixOffset`: `(y-Rect.Min.Y)*Stride + (x-Rect.Min.X)*bpp`. -/
def Packed.pixOffset (p : Packed) (bpp : Int) (x y : Int) : Int :=
  (y - p.rect.minY) * p.stride + (x - p.rect.minX) * bpp

/-- `image.NewAlpha` / `NewGray` / `NewRGBA` / …: zeroed buffer, stride
`bpp * width`. -/
def newPacked (r : Rect) (bpp : Int) : Packed :=
  { pix := fun _ => 0, stride := bpp * r.Dx, rect := r }

/-- The raw bytes of pixel `(x,y)` of a packed image, after the stdlib `At`
bounds check (`At` returns the zero color outside `Rect`). -/
def Packed.atBytes (p : Packed) (bpp : Nat) (x y : Int) : List Nat :=
  if p.rect.Mem x y then
    (List.range bpp).map fun (b : Nat) => p.pix (p.pixOffset bpp x y + (b : Int))
  else
    (List.range bpp).map fun _ => 0

/-- `image.YCbCr`: three planes, `YStride`, `CStride`, `Rect`,
`SubsampleRatio`. -/
structure YCbCr where
  yPlane : Buf
  cbPlane : Buf
  crPlane : Buf
  yStride : Int
  cStride : Int
  rect : Rect
  subsampleRatio : SubsampleRatio

/-- `YOffset`: `(y-Rect.Min.Y)*YStride + (x-Rect.Min.X)`. -/
def YCbCr.yOffset (p : YCbCr) (x y : Int) : Int :=
  (y - p.rect.minY) * p.yStride + (x - p.rect.minX)

/-- `COffset`, per subsample ratio, using Go's truncating division. -/
def YCbCr.cOffset (p : YCbCr) (x y : Int) : Int :=
  match p.subsampleRatio with
  | .sr422 => (y - p.rect.minY) * p.cStride + (godiv x 2 - godiv p.rect.minX 2)
  | .sr420 => (godiv y 2 - godiv p.rect.minY 2) * p.cStride + (godiv x 2 - godiv p.rect.minX 2)
  | .sr440 => (godiv y 2 - godiv p.rect.minY 2) * p.cStride + (x - p.rect.minX)
  | .sr411 => (y - p.rect.minY) * p.cStride + (godiv x 4 - godiv p.rect.minX 4)
  | .sr410 => (godiv y 2 - godiv p.rect.minY 2) * p.cStride + (godiv x 4 - godiv p.rect.minX 4)
  | .sr444 => (y - p.rect.minY) * p.cStride + (x - p.rect.minX)

/-- `yCbCrSize(r, subsampleRatio) -> (w, h, cw, ch)` from the Go standard
library. -/
def yCbCrSize (r : Rect) (sr : SubsampleRatio) : Int × Int × Int × Int :=
  match sr with
  | .sr444 => (r.Dx, r.Dy, r.Dx, r.Dy)
  | .sr422 => (r.Dx, r.Dy, godiv (r.maxX + 1) 2 - godiv r.minX 2, r.Dy)
  | .sr420 =>
      (r.Dx, r.Dy, godiv (r.maxX + 1) 2 - godiv r.minX 2, godiv (r.maxY + 1) 2 - godiv r.minY 2)
  | .sr440 => (r.Dx, r.Dy, r.Dx, godiv (r.maxY + 1) 2 - godiv r.minY 2)
  | .sr411 => (r.Dx, r.Dy, godiv (r.maxX + 3) 4 - godiv r.minX 4, r.Dy)
  | .sr410 =>
      (r.Dx, r.Dy, godiv (r.maxX + 3) 4 - godiv r.minX 4, godiv (r.maxY + 1) 2 - godiv r.minY 2)

/-- `image.NewYCbCr`: zeroed planes, `YStride = w`, `CStride = cw`. -/
def newYCbCr (r : Rect) (sr : SubsampleRatio) : YCbCr :=
  { yPlane := fun _ => 0, cbPlane := fun _ => 0, crPlane := fun _ => 0,
    yStride := (yCbCrSize r sr).1, cStride := (yCbCrSize r sr).2.2.1,
    rect := r, subsampleRatio := sr }

/-- The raw bytes `[Y, Cb, Cr]` of `YCbCr.At(x, y)` (zero color outside
`Rect`). -/
def YCbCr.atBytes (p : YCbCr) (x y : Int) : List Nat :=
  if p.rect.Mem x y then
    [p.yPlane (p.yOffset x y), p.cbPlane (p.cOffset x y), p.crPlane (p.cOffset x y)]
  else
    [0, 0, 0]

/-- `image.NYCbCrA`: a `YCbCr` plus an alpha plane with its own stride. -/
structure NYCbCrA where
  ycbcr : YCbCr
  aPlane : Buf
  aStride : Int

/-- `AOffset`: `(y-Rect.Min.Y)*AStride + (x-Rect.Min.X)`. -/
def NYCbCrA.aOffset (p : NYCbCrA) (x y : Int) : Int :=
  (y - p.ycbcr.rect.minY) * p.aStride + (x - p.ycbcr.rect.minX)

/-- `image.NewNYCbCrA`: zeroed planes, `AStride = w`. -/
def newNYCbCrA (r : Rect) (sr : SubsampleRatio) : NYCbCrA :=
  { ycbcr := newYCbCr r sr, aPlane := fun _ => 0, aStride := (yCbCrSize r sr).1 }

/-- The raw bytes `[Y, Cb, Cr, A]` of `NYCbCrA.At(x, y)`. -/
def NYCbCrA.atBytes (p : NYCbCrA) (x y : Int) : List Nat :=
  if p.ycbcr.rect.Mem x y then
    [p.ycbcr.yPlane (p.ycbcr.yOffset x y), p.ycbcr.cbPlane (p.ycbcr.cOffset x y),
      p.ycbcr.crPlane (p.ycbcr.cOffset x y), p.aPlane (p.aOffset x y)]
  else
    [0, 0, 0, 0]

/-- The concrete in-memory image layouts recognized by the fast path of
`Image`, i.e. the cases of its type switch.  A palette entry is an RGBA64
color (four 16-bit components). -/
inductive GoImage where
  | alpha (p : Packed)
  | alpha16 (p : Packed)
  | cmyk (p : Packed)
  | gray (p : Packed)
  | gray16 (p : Packed)
  | nrgba (p : Packed)
  | nrgba64 (p : Packed)
  | rgba (p : Packed)
  | rgba64 (p : Packed)
  | paletted (p : Packed) (palette : List (Nat × Nat × Nat × Nat))
  | ycbcr (p : YCbCr)
  | nycbcra (p : NYCbCrA)

/-- `Bounds()` of a recognized layout. -/
def GoImage.bounds : GoImage → Rect
  | .alpha p => p.rect
  | .alpha16 p => p.rect
  | .cmyk p => p.rect
  | .gray p => p.rect
  | .gray16 p => p.rect
  | .nrgba p => p.rect
  | .nrgba64 p => p.rect
  | .rgba p => p.rect
  | .rgba64 p => p.rect
  | .paletted p _ => p.rect
  | .ycbcr p => p.rect
  | .nycbcra p => p.ycbcr.rect

/-- The components of a palette color, flattened. -/
def paletteBytes (pal : List (Nat × Nat × Nat × Nat)) (i : Nat) : List Nat :=
  let c := pal.getD i (0, 0, 0, 0)
  [c.1, c.2.1, c.2.2.1, c.2.2.2]

/-- `At(x, y)`, rendered as the list of color components the stdlib accessor
produces; for packed layouts these are the raw plane bytes, for `Paletted`
the palette entry selected by the stored index. -/
def GoImage.atBytes : GoImage → Int → Int → List Nat
  | .alpha p, x, y => p.atBytes 1 x y
  | .alpha16 p, x, y => p.atBytes 2 x y
  | .cmyk p, x, y => p.atBytes 4 x y
  | .gray p, x, y => p.atBytes 1 x y
  | .gray16 p, x, y => p.atBytes 2 x y
  | .nrgba p, x, y => p.atBytes 4 x y
  | .nrgba64 p, x, y => p.atBytes 8 x y
  | .rgba p, x, y => p.atBytes 4 x y
  | .rgba64 p, x, y => p.atBytes 8 x y
  | .paletted p pal, x, y =>
      if pal = [] then []
      else if p.rect.Mem x y then paletteBytes pal (p.pix (p.pixOffset 1 x y))
      else paletteBytes pal 0
  | .ycbcr p, x, y => p.atBytes x y
  | .nycbcra p, x, y => p.atBytes x y

/-- An arbitrary `image.Image` reachable in this development: either a
recognized concrete layout, or a `rotateFlipImage` lazy view (which is also
how any unrecognized wrapper behaves, since the view only consults `Bounds`
and `At`). -/
inductive AnyImage where
  | base (img : GoImage)
  | view (src : AnyImage) (op : Nat)

/-- `Bounds()`:  a view reports `rotateBounds(src.Bounds(), op)`. -/
def AnyImage.bounds : AnyImage → Rect
  | .base img => img.bounds
  | .view src op => rotateBounds src.bounds op

/-- `rotateFlipImage.At(x, y)`: the inverse coordinate mapping of the lazy
slow path, by operation code. -/
def AnyImage.atBytes : AnyImage → Int → Int → List Nat
  | .base img, x, y => img.atBytes x y
  | .view src op, x, y =>
      let b := src.bounds
      match op with
      | 4 => src.atBytes (b.maxX - x - 1) (b.minY + y)
      | 2 => src.atBytes (b.maxX - x - 1) (b.maxY - y - 1)
      | 6 => src.atBytes (b.minX + x) (b.maxY - y - 1)
      | 5 => src.atBytes (b.minX + y) (b.minY + x)
      | 1 => src.atBytes (b.minX + y) (b.maxY - x - 1)
      | 7 => src.atBytes (b.maxX - y - 1) (b.maxY - x - 1)
      | 3 => src.atBytes (b.maxX - y - 1) (b.minY + x)
      | _ => src.atBytes (b.minX + x) (b.minY + y)

/-- `op &= 7`: sanitize an arbitrary operation code to `0..7`.  Two's
complement AND with 7 is the Euclidean remainder modulo 8. -/
def sanitize (op : Int) : Nat := (op % 8).toNat

/-- The fast-path body for a packed layout: allocate at the rotated bounds,
invoke `rotateFlip` with the layout's bytes-per-pixel. -/
def fastPacked (p : Packed) (bpp : Int) (op : Nat) : Packed :=
  let bounds := rotateBounds p.rect op
  let dst := newPacked bounds bpp
  { dst with
    pix := rotateFlip dst.pix dst.stride bounds.Dx bounds.Dy p.pix p.stride
      p.rect.Dx p.rect.Dy op bpp }

/-- The fast-path body for `*image.YCbCr` once the resolver has returned
ratio `sr`: per-plane `rotateFlip` with bpp 1, chroma dimensions from
`subsampledBounds`. -/
def fastYCbCr (p : YCbCr) (op : Nat) (sr : SubsampleRatio) : YCbCr :=
  let bounds := rotateBounds p.rect op
  let dst := newYCbCr bounds sr
  let srcCB := subsampledBounds p.rect p.subsampleRatio
  let dstCB := subsampledBounds bounds sr
  { dst with
    yPlane := rotateFlip dst.yPlane dst.yStride bounds.Dx bounds.Dy p.yPlane p.yStride
      p.rect.Dx p.rect.Dy op 1,
    cbPlane := rotateFlip dst.cbPlane dst.cStride dstCB.Dx dstCB.Dy p.cbPlane p.cStride
      srcCB.Dx srcCB.Dy op 1,
    crPlane := rotateFlip dst.crPlane dst.cStride dstCB.Dx dstCB.Dy p.crPlane p.cStride
      srcCB.Dx srcCB.Dy op 1 }

/-- The fast-path body for `*image.NYCbCrA`. -/
def fastNYCbCrA (p : NYCbCrA) (op : Nat) (sr : SubsampleRatio) : NYCbCrA :=
  let bounds := rotateBounds p.ycbcr.rect op
  let dst := newNYCbCrA bounds sr
  let srcCB := subsampledBounds p.ycbcr.rect p.ycbcr.subsampleRatio
  let dstCB := subsampledBounds bounds sr
  { ycbcr :=
    { dst.ycbcr with
      yPlane := rotateFlip dst.ycbcr.yPlane dst.ycbcr.yStride bounds.Dx bounds.Dy
        p.ycbcr.yPlane p.ycbcr.yStride p.ycbcr.rect.Dx p.ycbcr.rect.Dy op 1,
      cbPlane := rotateFlip dst.ycbcr.cbPlane dst.ycbcr.cStride dstCB.Dx dstCB.Dy
        p.ycbcr.cbPlane p.ycbcr.cStride srcCB.Dx srcCB.Dy op 1,
      crPlane := rotateFlip dst.ycbcr.crPlane dst.ycbcr.cStride dstCB.Dx dstCB.Dy
        p.ycbcr.crPlane p.ycbcr.cStride srcCB.Dx srcCB.Dy op 1 },
    aPlane := rotateFlip dst.aPlane dst.aStride bounds.Dx bounds.Dy
      p.aPlane p.aStride p.ycbcr.rect.Dx p.ycbcr.rect.Dy op 1,
    aStride := dst.aStride }

/-- The type switch of `Image`: `some` when a recognized layout takes the
fast path, `none` when it falls through to the lazy view (subsampled YCbCr
the resolver rejects). -/
def fastPath (img : GoImage) (op : Nat) : Option GoImage :=
  match img with
  | .alpha p => some (.alpha (fastPacked p 1 op))
  | .alpha16 p => some (.alpha16 (fastPacked p 2 op))
  | .cmyk p => some (.cmyk (fastPacked p 4 op))
  | .gray p => some (.gray (fastPacked p 1 op))
  | .gray16 p => some (.gray16 (fastPacked p 2 op))
  | .nrgba p => some (.nrgba (fastPacked p 4 op))
  | .nrgba64 p => some (.nrgba64 (fastPacked p 8 op))
  | .rgba p => some (.rgba (fastPacked p 4 op))
  | .rgba64 p => some (.rgba64 (fastPacked p 8 op))
  | .paletted p pal => some (.paletted (fastPacked p 1 op) pal)
  | .ycbcr p =>
      match rotateYCbCrSubsampleRatio p.subsampleRatio p.rect op with
      | some sr => some (.ycbcr (fastYCbCr p op sr))
      | none => none
  | .nycbcra p =>
      match rotateYCbCrSubsampleRatio p.ycbcr.subsampleRatio p.ycbcr.rect op with
      | some sr => some (.nycbcra (fastNYCbCrA p op sr))
      | none => none

/-- `Image(src, op)`: sanitize, return the source unchanged for operation 0,
otherwise fast path for recognized layouts (when applicable) and the lazy
view for everything else. -/
def Image (src : AnyImage) (op : Int) : AnyImage :=
  let o := sanitize op
  if o = 0 then src
  else
    match src with
    | .base img =>
        match fastPath img o with
        | some dst => .base dst
        | none => .view src o
    | .view _ _ => .view src o

/-- Routing a source through the slow path only (what `Image` does to an
unrecognized wrapper of the same source): sanitize, nop check, lazy view. -/
def imageSlow (src : AnyImage) (op : Int) : AnyImage :=
  let o := sanitize op
  if o = 0 then src else .view src o

/-- `Rectangle.Intersect` from the Go standard library: clip, and return the
zero rectangle when the result is empty. -/
def Rect.inter (r s : Rect) : Rect :=
  let t : Rect := ⟨max r.minX s.minX, max r.minY s.minY, min r.maxX s.maxX, min r.maxY s.maxY⟩
  if t.maxX ≤ t.minX ∨ t.maxY ≤ t.minY then ⟨0, 0, 0, 0⟩ else t

/-- `YCbCr.SubImage` from the Go standard library: intersect the rectangles,
return a zero image when empty, else share the parent planes (re-sliced at
the offsets of the new minimum) and strides under the clipped rectangle. -/
def YCbCr.subImage (p : YCbCr) (r : Rect) : YCbCr :=
  let r := r.inter p.rect
  if r.maxX ≤ r.minX ∨ r.maxY ≤ r.minY then
    { yPlane := fun _ => 0, cbPlane := fun _ => 0, crPlane := fun _ => 0,
      yStride := 0, cStride := 0, rect := ⟨0, 0, 0, 0⟩, subsampleRatio := p.subsampleRatio }
  else
    let yi := p.yOffset r.minX r.minY
    let ci := p.cOffset r.minX r.minY
    { yPlane := fun a => p.yPlane (yi + a),
      cbPlane := fun a => p.cbPlane (ci + a),
      crPlane := fun a => p.crPlane (ci + a),
      yStride := p.yStride, cStride := p.cStride, rect := r,
      subsampleRatio := p.subsampleRatio }

/-- `NYCbCrA.SubImage`: as for `YCbCr`, with the alpha plane re-sliced at its
own offset. -/
def NYCbCrA.subImage (p : NYCbCrA) (r : Rect) : NYCbCrA :=
  let r := r.inter p.ycbcr.rect
  if r.maxX ≤ r.minX ∨ r.maxY ≤ r.minY then
    { ycbcr :=
      { yPlane := fun _ => 0, cbPlane := fun _ => 0, crPlane := fun _ => 0,
        yStride := 0, cStride := 0, rect := ⟨0, 0, 0, 0⟩,
        subsampleRatio := p.ycbcr.subsampleRatio },
      aPlane := fun _ => 0, aStride := 0 }
  else
    let yi := p.ycbcr.yOffset r.minX r.minY
    let ci := p.ycbcr.cOffset r.minX r.minY
    let ai := p.aOffset r.minX r.minY
    { ycbcr :=
      { yPlane := fun a => p.ycbcr.yPlane (yi + a),
        cbPlane := fun a => p.ycbcr.cbPlane (ci + a),
        crPlane := fun a => p.ycbcr.crPlane (ci + a),
        yStride := p.ycbcr.yStride, cStride := p.ycbcr.cStride, rect := r,
        subsampleRatio := p.ycbcr.subsampleRatio },
      aPlane := fun a => p.aPlane (ai + a), aStride := p.aStride }

end rotateflip

namespace imageutil

open rotateflip

/-- `subsampleRatios(subsampleRatio) -> (sx, sy)`. -/
def subsampleRatios : SubsampleRatio → Int × Int
  | .sr444 => (1, 1)
  | .sr422 => (2, 1)
  | .sr420 => (2, 2)
  | .sr440 => (1, 2)
  | .sr411 => (4, 1)
  | .sr410 => (4, 2)

/-- The loop of `resample`: `copy(dst[dstOffset:dstOffset+dstStride],
src[srcOffset:])` per row. -/
def resampleLoop (dst : Buf) (src : Buf) (dstStride srcStride dstOffset srcOffset : Int) :
    Nat → Buf
  | 0 => dst
  | n + 1 =>
      resampleLoop (writeBytes dst dstOffset src srcOffset dstStride) src
        dstStride srcStride (dstOffset + dstStride) (srcOffset + srcStride) n

/-- `resample(dst, dstStride, src, srcStride, count)`: stride-aware
row-by-row copy. -/
def resample (dst : Buf) (dstStride : Int) (src : Buf) (srcStride : Int) (count : Int) : Buf :=
  resampleLoop dst src dstStride srcStride 0 0 count.toNat

/-- Single-byte store `dst[i] = v`. -/
def upd (dst : Buf) (i : Int) (v : Nat) : Buf :=
  fun a => if a = i then v else dst a

/-- The inner pixel loop of `upsample`'s generic branch:
`src_pix := src_row + (x/sx - minX/sx); dst.Cb[dst_pix] = src.Cb[src_pix];
dst.Cr[dst_pix] = src.Cr[src_pix]; dst_pix++`, for `x` from `minX`. -/
def upsamplePixLoop (dcb dcr : Buf) (scb scr : Buf) (srcRow sx minX : Int)
    (dstPix x : Int) : Nat → Buf × Buf × Int
  | 0 => (dcb, dcr, dstPix)
  | n + 1 =>
      let srcPix := srcRow + (godiv x sx - godiv minX sx)
      upsamplePixLoop (upd dcb dstPix (scb srcPix)) (upd dcr dstPix (scr srcPix)) scb scr
        srcRow sx minX (dstPix + 1) (x + 1) n

/-- The row loop of `upsample`'s generic branch: the destination pixel
counter carries over between rows. -/
def upsampleRowLoop (dcb dcr : Buf) (scb scr : Buf) (srcCStride sx sy : Int) (r : Rect)
    (dstPix y : Int) : Nat → Buf × Buf × Int
  | 0 => (dcb, dcr, dstPix)
  | n + 1 =>
      let srcRow := (godiv y sy - godiv r.minY sy) * srcCStride
      let s := upsamplePixLoop dcb dcr scb scr srcRow sx r.minX dstPix r.minX r.Dx.toNat
      upsampleRowLoop s.1 s.2.1 scb scr srcCStride sx sy r s.2.2 (y + 1) n

/-- The row loop of `upsample`'s `sx == 0` branch: whole-chroma-row copies
(`dst_end := dst_row + dst.CStride`).  `subsampleRatios` never returns
`sx = 0`, so this branch is unreachable, but it is part of the source. -/
def upsampleCopyLoop (dcb dcr : Buf) (scb scr : Buf) (dstCStride srcCStride sy minY : Int)
    (dstRow y : Int) : Nat → Buf × Buf
  | 0 => (dcb, dcr)
  | n + 1 =>
      let dstEnd := dstRow + dstCStride
      let srcRow := (godiv y sy - godiv minY sy) * srcCStride
      upsampleCopyLoop (writeBytes dcb dstRow scb srcRow dstCStride)
        (writeBytes dcr dstRow scr srcRow dstCStride) scb scr dstCStride srcCStride sy minY
        dstEnd (y + 1) n

/-- `upsample(src, dst)`: fill the destination chroma planes by
nearest-neighbor lookup with rectangle-relative division. -/
def upsample (src dst : YCbCr) : YCbCr :=
  let s := subsampleRatios src.subsampleRatio
  if s.1 = 0 then
    let r := upsampleCopyLoop dst.cbPlane dst.crPlane src.cbPlane src.crPlane dst.cStride
      src.cStride s.2 src.rect.minY 0 src.rect.minY src.rect.Dy.toNat
    { dst with cbPlane := r.1, crPlane := r.2 }
  else
    let r := upsampleRowLoop dst.cbPlane dst.crPlane src.cbPlane src.crPlane src.cStride
      s.1 s.2 src.rect 0 src.rect.minY src.rect.Dy.toNat
    { dst with cbPlane := r.1, crPlane := r.2.1 }

/-- `YCbCrUpsample(img)`: identity at ratio 4:4:4, else a fresh 4:4:4 image
with the luma plane `resample`d and the chroma planes `upsample`d. -/
def YCbCrUpsample (img : YCbCr) : YCbCr :=
  if img.subsampleRatio = .sr444 then img
  else
    let dst := newYCbCr img.rect .sr444
    let dst :=
      { dst with yPlane := resample dst.yPlane dst.yStride img.yPlane img.yStride img.rect.Dy }
    upsample img dst

/-- `NYCbCrAUpsample(img)`: as `YCbCrUpsample`, plus a `resample` of the
alpha plane. -/
def NYCbCrAUpsample (img : NYCbCrA) : NYCbCrA :=
  if img.ycbcr.subsampleRatio = .sr444 then img
  else
    let dst := newNYCbCrA img.ycbcr.rect .sr444
    let dstY :=
      { dst.ycbcr with
        yPlane := resample dst.ycbcr.yPlane dst.ycbcr.yStride img.ycbcr.yPlane
          img.ycbcr.yStride img.ycbcr.rect.Dy }
    { ycbcr := upsample img.ycbcr dstY,
      aPlane := resample dst.aPlane dst.aStride img.aPlane img.aStride img.ycbcr.rect.Dy,
      aStride := dst.aStride }

/-- The chroma components (Cb, Cr) of an `At` byte list: positions 1 and 2,
for both YCbCr's `[Y, Cb, Cr]` and NYCbCrA's `[Y, Cb, Cr, A]`. -/
def chromaOf : List Nat → List Nat
  | _ :: cb :: cr :: _ => [cb, cr]
  | _ => []

/-- A concrete 4×2 4:2:2 parent image, used to witness the upsampler crop
property. -/
def exP : YCbCr :=
  { yPlane := fun a => a.toNat, cbPlane := fun a => 10 + a.toNat,
    crPlane := fun a => 30 + a.toNat, yStride := 4, cStride := 2,
    rect := ⟨0, 0, 4, 2⟩, subsampleRatio := .sr422 }

/-- A concrete 4×2 4:2:0 parent image with an alpha plane. -/
def exQ : NYCbCrA :=
  { ycbcr :=
    { yPlane := fun a => 1 + a.toNat, cbPlane := fun a => 50 + a.toNat,
      crPlane := fun a => 70 + a.toNat, yStride := 4, cStride := 2,
      rect := ⟨0, 0, 4, 2⟩, subsampleRatio := .sr420 },
    aPlane := fun a => 90 + a.toNat, aStride := 4 }

/-- A crop rectangle whose minimum is not aligned to the subsampling grid. -/
def exR : Rect := ⟨1, 1, 3, 2⟩

end imageutil

namespace rotateflip

/-- The inverse coordinate mapping of `rotateFlipImage.At` in local
(origin-relative) coordinates: for a source of width `w` and height `h`,
destination pixel `(x, y)` reads source pixel `invMap op w h x y`. -/
def invMap (op : Nat) (w h : Int) (x y : Int) : Int × Int :=
  match op with
  | 4 => (w - x - 1, y)
  | 2 => (w - x - 1, h - y - 1)
  | 6 => (x, h - y - 1)
  | 5 => (y, x)
  | 1 => (y, h - x - 1)
  | 7 => (w - y - 1, h - x - 1)
  | 3 => (w - y - 1, x)
  | _ => (x, y)

/-- The absolute inverse coordinate mapping used by `rotateFlipImage.At`:
destination pixel `(x, y)` reads the source at `atMap (src.Bounds()) op x y`. -/
def atMap (r : Rect) (op : Nat) (x y : Int) : Int × Int :=
  match op with
  | 4 => (r.maxX - x - 1, r.minY + y)
  | 2 => (r.maxX - x - 1, r.maxY - y - 1)
  | 6 => (r.minX + x, r.maxY - y - 1)
  | 5 => (r.minX + y, r.minY + x)
  | 1 => (r.minX + y, r.maxY - x - 1)
  | 7 => (r.maxX - y - 1, r.maxY - x - 1)
  | 3 => (r.maxX - y - 1, r.minY + x)
  | _ => (r.minX + x, r.minY + y)

/-- Sources whose bounds stay in the non-negative quadrant when they are a
planar YCbCr layout.  Go's truncating division makes the standard library's
chroma addressing irregular at negative coordinates, so the fast path agrees
with the slow path on planar layouts only under this condition; all other
layouts need no restriction. -/
def ycbcrNonneg : AnyImage → Prop
  | .base (.ycbcr p) => 0 ≤ p.rect.minX ∧ 0 ≤ p.rect.minY
  | .base (.nycbcra p) => 0 ≤ p.ycbcr.rect.minX ∧ 0 ≤ p.ycbcr.rect.minY
  | _ => True

/-- A small concrete grayscale image, used to witness theorems with
hypotheses. -/
def exGray : AnyImage :=
  .base (.gray { pix := fun a => a.toNat + 1, stride := 3, rect := ⟨0, 0, 3, 2⟩ })

/-- A 4:2:0 YCbCr image on an aligned rectangle with negative minimum.
All four edges are even, so the resolver accepts it for the fast path, but
Go's truncating division pairs its pixels into chroma blocks irregularly:
`COffset` maps x = -4,-3,-2,-1,0,1,2,3 to chroma indices 0,1,1,2,2,2,3,3. -/
def cexYCbCr : YCbCr :=
  { yPlane := fun a => a.toNat, cbPlane := fun a => 10 + a.toNat,
    crPlane := fun a => 20 + a.toNat, yStride := 8, cStride := 4,
    rect := ⟨-4, 0, 4, 2⟩, subsampleRatio := .sr420 }

end rotateflip

namespace rotateflip

theorem writeBytes_get (dst src : Buf) (p q len a : Int) :
    writeBytes dst p src q len a =
      if p ≤ a ∧ a < p + len then src (q + (a - p)) else dst a := rfl

theorem writeBytes_nonpos (dst src : Buf) (p q len : Int) (h : len ≤ 0) :
    writeBytes dst p src q len = dst := by
  funext a
  simp only [writeBytes]
  rw [if_neg]
  omega

theorem copyPixels_nonpos (dst src : Buf) (p q xoff bpp : Int) (n : Nat) (h : bpp ≤ 0) :
    copyPixels dst src p q xoff bpp n = dst := by
  induction n generalizing dst p q with
  | zero => rfl
  | succ n ih => rw [copyPixels, writeBytes_nonpos _ _ _ _ _ h, ih]

theorem writeBytes_split (dst src : Buf) (p q L1 L2 : Int) (h1 : 0 ≤ L1) (h2 : 0 ≤ L2) :
    writeBytes (writeBytes dst p src q L1) (p + L1) src (q + L1) L2 =
      writeBytes dst p src q (L1 + L2) := by
  funext a
  simp only [writeBytes]
  by_cases hA : p + L1 ≤ a ∧ a < p + L1 + L2
  · rw [if_pos hA, if_pos (by omega)]
    congr 1
    omega
  · rw [if_neg hA]
    by_cases hB : p ≤ a ∧ a < p + L1
    · rw [if_pos hB, if_pos (by omega)]
    · rw [if_neg hB, if_neg (by omega)]

theorem copyPixels_contig (src : Buf) (bpp : Int) (h : 0 < bpp) (n : Nat) :
    ∀ (dst : Buf) (p q : Int),
      copyPixels dst src p q bpp bpp n = writeBytes dst p src q (n * bpp) := by
  induction n with
  | zero =>
      intro dst p q
      rw [copyPixels, writeBytes_nonpos]
      simp
  | succ n ih =>
      intro dst p q
      rw [copyPixels, ih, writeBytes_split _ _ _ _ _ _ (le_of_lt h) (by positivity)]
      push_cast
      ring_nf

/-- One pixel row written per-pixel with `dst_x_offset = bpp` equals one
contiguous row copy of `srcWidth * bpp` bytes, for any sign of the
arguments as long as `bpp` is non-negative. -/
theorem copyPixels_eq_contig_row (dst src : Buf) (p q bpp W : Int) (h : 0 ≤ bpp) :
    copyPixels dst src p q bpp bpp W.toNat = writeBytes dst p src q (W * bpp) := by
  rcases lt_or_eq_of_le h with hpos | hzero
  · rcases le_or_lt W 0 with hW | hW
    · rw [Int.toNat_of_nonpos hW, copyPixels, writeBytes_nonpos]
      exact mul_nonpos_of_nonpos_of_nonneg hW (le_of_lt hpos)
    · rw [copyPixels_contig _ _ hpos, Int.toNat_of_nonneg (le_of_lt hW)]
  · rw [copyPixels_nonpos _ _ _ _ _ _ _ (le_of_eq hzero.symm),
      writeBytes_nonpos]
    rw [← hzero]
    simp

theorem copyRows_contig_eq_pixel (src : Buf) (yoff ss bpp W : Int) (h : 0 ≤ bpp) (n : Nat) :
    ∀ (dst : Buf) (dr sr : Int),
      copyRowsContig dst src dr sr yoff ss (W * bpp) n =
        copyRowsPixel dst src dr sr yoff ss bpp bpp W.toNat n := by
  induction n with
  | zero => intro dst dr sr; rfl
  | succ n ih =>
      intro dst dr sr
      rw [copyRowsContig, copyRowsPixel, ih, copyPixels_eq_contig_row _ _ _ _ _ _ h]

theorem copyPixels_miss (src : Buf) (xoff bpp : Int) (a : Int) (n : Nat) :
    ∀ (dst : Buf) (p q : Int),
      (∀ k : Nat, k < n → ¬(p + k * xoff ≤ a ∧ a < p + k * xoff + bpp)) →
      copyPixels dst src p q xoff bpp n a = dst a := by
  induction n with
  | zero => intro dst p q _; rfl
  | succ n ih =>
      intro dst p q hmiss
      rw [copyPixels, ih]
      · rw [writeBytes_get, if_neg]
        have := hmiss 0 (Nat.succ_pos n)
        push_cast at this
        simpa using this
      · intro k hk
        have h2 := hmiss (k + 1) (by omega)
        push_cast at h2 ⊢
        intro hcon
        apply h2
        constructor <;> nlinarith [hcon.1, hcon.2]

theorem copyPixels_hit (src : Buf) (xoff bpp : Int) (n : Nat) :
    ∀ (dst : Buf) (p q : Int) (k : Nat) (b : Int), k < n → 0 ≤ b → b < bpp →
      (∀ k' : Nat, k' < n → k' ≠ k →
        ¬(p + k' * xoff ≤ p + k * xoff + b ∧ p + k * xoff + b < p + k' * xoff + bpp)) →
      copyPixels dst src p q xoff bpp n (p + k * xoff + b) = src (q + k * bpp + b) := by
  induction n with
  | zero => intro dst p q k b hk; omega
  | succ n ih =>
      intro dst p q k b hk hb0 hb1 huniq
      rw [copyPixels]
      cases k with
      | zero =>
          rw [copyPixels_miss]
          · rw [writeBytes_get, if_pos (by push_cast; omega)]
            push_cast
            congr 1
            ring
          · intro k' hk'
            have h2 := huniq (k' + 1) (by omega) (by omega)
            push_cast at h2 ⊢
            intro hcon
            apply h2
            constructor <;> nlinarith [hcon.1, hcon.2]
      | succ k =>
          have heq : p + ((k : Int) + 1) * xoff + b = (p + xoff) + (k : Int) * xoff + b := by
            ring
          push_cast
          rw [heq, ih _ _ _ k b (by omega) hb0 hb1]
          · congr 1
            ring
          · intro k' hk' hne
            have h2 := huniq (k' + 1) (by omega) (by omega)
            push_cast at h2 ⊢
            intro hcon
            apply h2
            constructor <;> nlinarith [hcon.1, hcon.2]

theorem copyRowsPixel_miss (src : Buf) (yoff ss xoff bpp : Int) (W : Nat) (a : Int) (n : Nat) :
    ∀ (dst : Buf) (dr sr : Int),
      (∀ (j k : Nat), j < n → k < W →
        ¬(dr + j * yoff + k * xoff ≤ a ∧ a < dr + j * yoff + k * xoff + bpp)) →
      copyRowsPixel dst src dr sr yoff ss xoff bpp W n a = dst a := by
  induction n with
  | zero => intro dst dr sr _; rfl
  | succ n ih =>
      intro dst dr sr hmiss
      rw [copyRowsPixel, ih]
      · rw [copyPixels_miss]
        intro k hk
        have := hmiss 0 k (Nat.succ_pos n) hk
        push_cast at this
        simpa using this
      · intro j k hj hk
        have h2 := hmiss (j + 1) k (by omega) hk
        push_cast at h2 ⊢
        intro hcon
        apply h2
        constructor <;> nlinarith [hcon.1, hcon.2]

theorem copyRowsPixel_read (src : Buf) (yoff ss xoff bpp : Int) (W : Nat) (n : Nat) :
    ∀ (dst : Buf) (dr sr : Int) (j k : Nat) (b : Int), j < n → k < W → 0 ≤ b → b < bpp →
      (∀ (j' k' : Nat), j' < n → k' < W → (j', k') ≠ (j, k) →
        ¬(dr + j' * yoff + k' * xoff ≤ dr + j * yoff + k * xoff + b ∧
          dr + j * yoff + k * xoff + b < dr + j' * yoff + k' * xoff + bpp)) →
      copyRowsPixel dst src dr sr yoff ss xoff bpp W n (dr + j * yoff + k * xoff + b) =
        src (sr + j * ss + k * bpp + b) := by
  induction n with
  | zero => intro dst dr sr j k b hj; omega
  | succ n ih =>
      intro dst dr sr j k b hj hk hb0 hb1 huniq
      rw [copyRowsPixel]
      cases j with
      | zero =>
          rw [copyRowsPixel_miss]
          · have haddr : dr + (0 : Nat) * yoff + (k : Int) * xoff + b =
                dr + (k : Int) * xoff + b := by push_cast; ring
            rw [haddr, copyPixels_hit _ _ _ _ _ _ _ k b hk hb0 hb1]
            · push_cast; congr 1; ring
            · intro k' hk' hne
              have h2 := huniq 0 k' (Nat.succ_pos n) hk' (by simp [hne])
              push_cast at h2 ⊢
              intro hcon
              apply h2
              constructor <;> nlinarith [hcon.1, hcon.2]
          · intro j' k' hj' hk'
            have h2 := huniq (j' + 1) k' (by omega) hk' (by simp)
            push_cast at h2 ⊢
            intro hcon
            apply h2
            constructor <;> nlinarith [hcon.1, hcon.2]
      | succ j =>
          have heq : dr + ((j : Int) + 1) * yoff + (k : Int) * xoff + b =
              (dr + yoff) + (j : Int) * yoff + (k : Int) * xoff + b := by ring
          push_cast
          rw [heq, ih _ _ _ j k b (by omega) hk hb0 hb1]
          · congr 1
            ring
          · intro j' k' hj' hk' hne
            have h2 := huniq (j' + 1) k' (by omega) hk' (by simpa using hne)
            push_cast at h2 ⊢
            intro hcon
            apply h2
            constructor <;> nlinarith [hcon.1, hcon.2]

/-- Mixed-radix uniqueness: in a destination plane of stride `bpp * dw`, a
byte address decomposes uniquely into (row multiple, pixel index `< dw`,
byte index `< bpp`). -/
theorem addr_uniq (bpp dw K M B B' : Int) (hb : 0 < bpp) (hM : |M| < dw)
    (hB0 : 0 ≤ B) (hB1 : B < bpp) (hB0' : 0 ≤ B') (hB1' : B' < bpp)
    (h : K * (bpp * dw) + M * bpp + B = B') : K = 0 ∧ M = 0 ∧ B = B' := by
  have hdw : 0 < dw := lt_of_le_of_lt (abs_nonneg M) hM
  have hM1 : -(dw - 1) ≤ M := by have := neg_abs_le M; omega
  have hM2 : M ≤ dw - 1 := by have := le_abs_self M; omega
  have hK : K = 0 := by
    rcases lt_trichotomy K 0 with hKn | hKz | hKp
    · exfalso
      have e1 : K * (bpp * dw) ≤ -1 * (bpp * dw) :=
        mul_le_mul_of_nonneg_right (by omega) (by positivity)
      have e2 : M * bpp ≤ (dw - 1) * bpp := mul_le_mul_of_nonneg_right hM2 (le_of_lt hb)
      nlinarith
    · exact hKz
    · exfalso
      have e1 : 1 * (bpp * dw) ≤ K * (bpp * dw) :=
        mul_le_mul_of_nonneg_right (by omega) (by positivity)
      have e2 : (-(dw - 1)) * bpp ≤ M * bpp := mul_le_mul_of_nonneg_right hM1 (le_of_lt hb)
      nlinarith
  subst hK
  have hMz : M = 0 := by
    rcases lt_trichotomy M 0 with hMn | hMz | hMp
    · exfalso
      have e2 : M * bpp ≤ -1 * bpp := mul_le_mul_of_nonneg_right (by omega) (le_of_lt hb)
      nlinarith
    · exact hMz
    · exfalso
      have e2 : 1 * bpp ≤ M * bpp := mul_le_mul_of_nonneg_right (by omega) (le_of_lt hb)
      nlinarith
  subst hMz
  constructor
  · rfl
  constructor
  · rfl
  · nlinarith

/-- Disjointness form of `addr_uniq`: if an in-pixel byte lands in the pixel
slot displaced by `E` rows and `D` pixels, both displacements are zero. -/
theorem grid_disjoint (bpp dw E D b : Int) (hb : 0 < bpp) (hD : |D| < dw)
    (hb0 : 0 ≤ b) (hb1 : b < bpp)
    (h0 : 0 ≤ E * (bpp * dw) + D * bpp + b) (h1 : E * (bpp * dw) + D * bpp + b < bpp) :
    E = 0 ∧ D = 0 := by
  obtain ⟨hE, hD, _⟩ := addr_uniq bpp dw E D b (E * (bpp * dw) + D * bpp + b) hb hD hb0 hb1 h0 h1 rfl
  exact ⟨hE, hD⟩

theorem copyRowsPixel_read_int (dst src : Buf) (dr sr yoff ss xoff bpp W H j k b : Int)
    (hj0 : 0 ≤ j) (hj1 : j < H) (hk0 : 0 ≤ k) (hk1 : k < W)
    (hb0 : 0 ≤ b) (hb1 : b < bpp)
    (huniq : ∀ j' k' : Int, 0 ≤ j' → j' < H → 0 ≤ k' → k' < W → ¬(j' = j ∧ k' = k) →
      ¬(dr + j' * yoff + k' * xoff ≤ dr + j * yoff + k * xoff + b ∧
        dr + j * yoff + k * xoff + b < dr + j' * yoff + k' * xoff + bpp)) :
    copyRowsPixel dst src dr sr yoff ss xoff bpp W.toNat H.toNat
        (dr + j * yoff + k * xoff + b) =
      src (sr + j * ss + k * bpp + b) := by
  obtain ⟨jn, rfl⟩ : ∃ jn : Nat, (jn : Int) = j := ⟨j.toNat, Int.toNat_of_nonneg hj0⟩
  obtain ⟨kn, rfl⟩ : ∃ kn : Nat, (kn : Int) = k := ⟨k.toNat, Int.toNat_of_nonneg hk0⟩
  apply copyRowsPixel_read src yoff ss xoff bpp W.toNat H.toNat dst dr sr jn kn b
    (by omega) (by omega) hb0 hb1
  intro j' k' hj' hk' hne
  apply huniq j' k' (by positivity) (by omega) (by positivity) (by omega)
  intro hc
  apply hne
  have e1 : j' = jn := by omega
  have e2 : k' = kn := by omega
  rw [e1, e2]

/-- The contiguous row-copy branch of `rotateFlip` agrees with the generic
per-pixel branch whenever the bytes-per-pixel count is non-negative (it is
1, 2, 4 or 8 at every call site). -/
theorem rotateFlip_eq_perPixel (dst : Buf) (ds dw dh : Int) (src : Buf) (ss sw sh : Int)
    (op : Nat) (bpp : Int) (h : 0 ≤ bpp) :
    rotateFlip dst ds dw dh src ss sw sh op bpp =
      rotateFlipPerPixel dst ds dw dh src ss sw sh op bpp := by
  simp only [rotateFlip, rotateFlipPerPixel]
  by_cases hc : (rotateFlipOffsets ds dw dh op bpp).2.1 = bpp
  · rw [if_pos hc, copyRows_contig_eq_pixel _ _ _ _ _ h, hc]
  · rw [if_neg hc]

end rotateflip

namespace rotateflip

set_option maxHeartbeats 1600000 in
/-- Master correctness of the strided copier: for destination stride
`bpp * dw` (as every fast-path allocation sets it) and destination dimensions
`dw × dh` obtained from the source `w × h` by the operation, byte `b` of
destination pixel `(X, Y)` equals byte `b` of the source pixel given by the
inverse coordinate mapping. -/
theorem rotateFlip_read (dst0 src : Buf) (ss bpp w h dw dh X Y b : Int) (op : Nat)
    (hop : op < 8) (hbpp : 0 < bpp)
    (hdw : dw = if op &&& 1 != 0 then h else w)
    (hdh : dh = if op &&& 1 != 0 then w else h)
    (hX0 : 0 ≤ X) (hX1 : X < dw) (hY0 : 0 ≤ Y) (hY1 : Y < dh)
    (hb0 : 0 ≤ b) (hb1 : b < bpp) :
    rotateFlip dst0 (bpp * dw) dw dh src ss w h op bpp (Y * (bpp * dw) + X * bpp + b)
      = src ((invMap op w h X Y).2 * ss + (invMap op w h X Y).1 * bpp + b) := by
  rw [rotateFlip_eq_perPixel _ _ _ _ _ _ _ _ _ _ (le_of_lt hbpp)]
  interval_cases op
  · -- None
    norm_num at hdw hdh
    subst dw dh
    simp only [invMap, rotateFlipPerPixel, rotateFlipOffsets, parity]
    norm_num [Nat.shiftRight_eq_div_pow, show ((0:Nat) &&& 1) = 0 from rfl, show ((0:Nat) &&& 2) = 0 from rfl]
    rw [show Y * (bpp * w) + X * bpp + b = 0 + Y * (bpp * w) + X * bpp + b from by ring]
    rw [copyRowsPixel_read_int dst0 src 0 0 (bpp * w) ss bpp bpp w h Y X b hY0 hY1 hX0 hX1 hb0 hb1
      (by
        intro j' k' hj0' hj1' hk0' hk1' hne hcon
        obtain ⟨hE, hD⟩ := grid_disjoint bpp w (Y - j') (X - k') b hbpp (by rw [abs_lt]; omega)
          hb0 hb1 (by nlinarith [hcon.1]) (by nlinarith [hcon.2])
        exact hne ⟨by omega, by omega⟩)]
    congr 1
    ring
  · -- Rotate90
    norm_num at hdw hdh
    subst dw dh
    simp only [invMap, rotateFlipPerPixel, rotateFlipOffsets, parity]
    norm_num [Nat.shiftRight_eq_div_pow, show ((1:Nat) &&& 1) = 1 from rfl, show ((1:Nat) &&& 2) = 0 from rfl]
    rw [show Y * (bpp * h) + X * bpp + b =
        bpp * (h - 1) + (h - 1 - X) * (-bpp) + Y * (bpp * h) + b from by ring]
    rw [copyRowsPixel_read_int dst0 src (bpp * (h - 1)) 0 (-bpp) ss (bpp * h) bpp w h
      (h - 1 - X) Y b (by omega) (by omega) hY0 hY1 hb0 hb1
      (by
        intro j' k' hj0' hj1' hk0' hk1' hne hcon
        obtain ⟨hE, hD⟩ := grid_disjoint bpp h (Y - k') (j' - (h - 1 - X)) b hbpp
          (by rw [abs_lt]; omega) hb0 hb1 (by nlinarith [hcon.1]) (by nlinarith [hcon.2])
        exact hne ⟨by omega, by omega⟩)]
    congr 1
    ring
  · -- Rotate180 / FlipXY
    norm_num at hdw hdh
    subst dw dh
    simp only [invMap, rotateFlipPerPixel, rotateFlipOffsets, parity]
    norm_num [Nat.shiftRight_eq_div_pow, show ((2:Nat) &&& 1) = 0 from rfl, show ((2:Nat) &&& 2) = 2 from rfl]
    rw [show Y * (bpp * w) + X * bpp + b =
        bpp * (w - 1) + bpp * w * (h - 1) + (h - 1 - Y) * (-(bpp * w)) +
          (w - 1 - X) * (-bpp) + b from by ring]
    rw [copyRowsPixel_read_int dst0 src (bpp * (w - 1) + bpp * w * (h - 1)) 0 (-(bpp * w)) ss
      (-bpp) bpp w h (h - 1 - Y) (w - 1 - X) b (by omega) (by omega) (by omega) (by omega) hb0 hb1
      (by
        intro j' k' hj0' hj1' hk0' hk1' hne hcon
        obtain ⟨hE, hD⟩ := grid_disjoint bpp w (j' - (h - 1 - Y)) (k' - (w - 1 - X)) b hbpp
          (by rw [abs_lt]; omega) hb0 hb1 (by nlinarith [hcon.1]) (by nlinarith [hcon.2])
        exact hne ⟨by omega, by omega⟩)]
    congr 1
    ring
  · -- Rotate270
    norm_num at hdw hdh
    subst dw dh
    simp only [invMap, rotateFlipPerPixel, rotateFlipOffsets, parity]
    norm_num [Nat.shiftRight_eq_div_pow, show ((3:Nat) &&& 1) = 1 from rfl, show ((3:Nat) &&& 2) = 2 from rfl]
    rw [show Y * (bpp * h) + X * bpp + b =
        bpp * h * (w - 1) + X * bpp + (w - 1 - Y) * (-(bpp * h)) + b from by ring]
    rw [copyRowsPixel_read_int dst0 src (bpp * h * (w - 1)) 0 bpp ss (-(bpp * h)) bpp w h
      X (w - 1 - Y) b hX0 (by omega) (by omega) (by omega) hb0 hb1
      (by
        intro j' k' hj0' hj1' hk0' hk1' hne hcon
        obtain ⟨hE, hD⟩ := grid_disjoint bpp h (k' - (w - 1 - Y)) (X - j') b hbpp
          (by rw [abs_lt]; omega) hb0 hb1 (by nlinarith [hcon.1]) (by nlinarith [hcon.2])
        exact hne ⟨by omega, by omega⟩)]
    congr 1
    ring
  · -- FlipX
    norm_num at hdw hdh
    subst dw dh
    simp only [invMap, rotateFlipPerPixel, rotateFlipOffsets, parity]
    norm_num [Nat.shiftRight_eq_div_pow, show ((4:Nat) &&& 1) = 0 from rfl, show ((4:Nat) &&& 2) = 0 from rfl]
    rw [show Y * (bpp * w) + X * bpp + b =
        bpp * (w - 1) + Y * (bpp * w) + (w - 1 - X) * (-bpp) + b from by ring]
    rw [copyRowsPixel_read_int dst0 src (bpp * (w - 1)) 0 (bpp * w) ss (-bpp) bpp w h
      Y (w - 1 - X) b hY0 hY1 (by omega) (by omega) hb0 hb1
      (by
        intro j' k' hj0' hj1' hk0' hk1' hne hcon
        obtain ⟨hE, hD⟩ := grid_disjoint bpp w (Y - j') (k' - (w - 1 - X)) b hbpp
          (by rw [abs_lt]; omega) hb0 hb1 (by nlinarith [hcon.1]) (by nlinarith [hcon.2])
        exact hne ⟨by omega, by omega⟩)]
    congr 1
    ring
  · -- Transpose
    norm_num at hdw hdh
    subst dw dh
    simp only [invMap, rotateFlipPerPixel, rotateFlipOffsets, parity]
    norm_num [Nat.shiftRight_eq_div_pow, show ((5:Nat) &&& 1) = 1 from rfl, show ((5:Nat) &&& 2) = 0 from rfl]
    rw [show Y * (bpp * h) + X * bpp + b = 0 + X * bpp + Y * (bpp * h) + b from by ring]
    rw [copyRowsPixel_read_int dst0 src 0 0 bpp ss (bpp * h) bpp w h X Y b hX0 (by omega)
      hY0 hY1 hb0 hb1
      (by
        intro j' k' hj0' hj1' hk0' hk1' hne hcon
        obtain ⟨hE, hD⟩ := grid_disjoint bpp h (Y - k') (X - j') b hbpp (by rw [abs_lt]; omega)
          hb0 hb1 (by nlinarith [hcon.1]) (by nlinarith [hcon.2])
        exact hne ⟨by omega, by omega⟩)]
    congr 1
    ring
  · -- FlipY
    norm_num at hdw hdh
    subst dw dh
    simp only [invMap, rotateFlipPerPixel, rotateFlipOffsets, parity]
    norm_num [Nat.shiftRight_eq_div_pow, show ((6:Nat) &&& 1) = 0 from rfl, show ((6:Nat) &&& 2) = 2 from rfl]
    rw [show Y * (bpp * w) + X * bpp + b =
        bpp * w * (h - 1) + (h - 1 - Y) * (-(bpp * w)) + X * bpp + b from by ring]
    rw [copyRowsPixel_read_int dst0 src (bpp * w * (h - 1)) 0 (-(bpp * w)) ss bpp bpp w h
      (h - 1 - Y) X b (by omega) (by omega) hX0 hX1 hb0 hb1
      (by
        intro j' k' hj0' hj1' hk0' hk1' hne hcon
        obtain ⟨hE, hD⟩ := grid_disjoint bpp w (j' - (h - 1 - Y)) (X - k') b hbpp
          (by rw [abs_lt]; omega) hb0 hb1 (by nlinarith [hcon.1]) (by nlinarith [hcon.2])
        exact hne ⟨by omega, by omega⟩)]
    congr 1
    ring
  · -- Transverse
    norm_num at hdw hdh
    subst dw dh
    simp only [invMap, rotateFlipPerPixel, rotateFlipOffsets, parity]
    norm_num [Nat.shiftRight_eq_div_pow, show ((7:Nat) &&& 1) = 1 from rfl, show ((7:Nat) &&& 2) = 2 from rfl]
    rw [show Y * (bpp * h) + X * bpp + b =
        bpp * (h - 1) + bpp * h * (w - 1) + (h - 1 - X) * (-bpp) +
          (w - 1 - Y) * (-(bpp * h)) + b from by ring]
    rw [copyRowsPixel_read_int dst0 src (bpp * (h - 1) + bpp * h * (w - 1)) 0 (-bpp) ss
      (-(bpp * h)) bpp w h (h - 1 - X) (w - 1 - Y) b (by omega) (by omega) (by omega) (by omega)
      hb0 hb1
      (by
        intro j' k' hj0' hj1' hk0' hk1' hne hcon
        obtain ⟨hE, hD⟩ := grid_disjoint bpp h (k' - (w - 1 - Y)) (j' - (h - 1 - X)) b hbpp
          (by rw [abs_lt]; omega) hb0 hb1 (by nlinarith [hcon.1]) (by nlinarith [hcon.2])
        exact hne ⟨by omega, by omega⟩)]
    congr 1
    ring

theorem rotateBounds_ite (r : Rect) (o : Nat) :
    rotateBounds r o =
      { minX := 0, minY := 0, maxX := if o % 2 = 1 then r.Dy else r.Dx,
        maxY := if o % 2 = 1 then r.Dx else r.Dy } := by
  unfold rotateBounds
  rw [Nat.and_one_is_mod]
  rcases Nat.mod_two_eq_zero_or_one o with h | h <;> simp [h]

theorem image_bounds (src : AnyImage) (op : Int) (h : sanitize op ≠ 0) :
    (Image src op).bounds = rotateBounds src.bounds (sanitize op) := by
  simp only [Image]
  rw [if_neg h]
  cases src with
  | base img =>
      cases img with
      | ycbcr p =>
          rcases hr : rotateYCbCrSubsampleRatio p.subsampleRatio p.rect (sanitize op) with
            _ | sr <;> simp [fastPath, hr] <;> rfl
      | nycbcra p =>
          rcases hr :
              rotateYCbCrSubsampleRatio p.ycbcr.subsampleRatio p.ycbcr.rect (sanitize op) with
            _ | sr <;> simp [fastPath, hr] <;> rfl
      | _ => rfl
  | view s o2 => rfl

/-- C10: when the sanitized operation is non-zero, both paths return an image
whose bounds have minimum corner (0,0) and maximum corner (source height,
source width) for rotational operations, (source width, source height)
otherwise. -/
theorem C10_thm (src : AnyImage) (op : Int) (h : sanitize op ≠ 0) :
    (Image src op).bounds =
      { minX := 0, minY := 0,
        maxX := if sanitize op % 2 = 1 then src.bounds.Dy else src.bounds.Dx,
        maxY := if sanitize op % 2 = 1 then src.bounds.Dx else src.bounds.Dy } := by
  rw [image_bounds src op h, rotateBounds_ite]

/-- C10 witness: a 3×2 grayscale image under Rotate90 gets bounds
(0,0)-(2,3). -/
theorem C10_wit : sanitize 1 ≠ 0 ∧ (Image exGray 1).bounds = ⟨0, 0, 2, 3⟩ :=
  ⟨by decide, (C10_thm exGray 1 (by decide)).trans (by decide)⟩

/-- C6: the operation code is silently reduced to the 3-bit domain: `Image`
behaves identically on `op` and on `op mod 8`, for every integer `op`
(negative codes included); no code is rejected. -/
theorem C6_thm (src : AnyImage) (op : Int) : Image src op = Image src (op % 8) := by
  unfold Image sanitize
  rw [Int.emod_emod_of_dvd op dvd_rfl]

/-- C7: an operation whose sanitized code is 0 returns the source image
itself. -/
theorem C7_thm (src : AnyImage) (op : Int) (h : sanitize op = 0) : Image src op = src := by
  unfold Image
  rw [h]
  rfl

/-- C7 witness: `Image` at operation 8 (sanitized to 0) returns the source
itself. -/
theorem C7_wit : sanitize 8 = 0 ∧ Image exGray 8 = exGray :=
  ⟨by decide, C7_thm exGray 8 (by decide)⟩

theorem resolver_eq_411 (bounds : Rect) (op : Nat) :
    rotateYCbCrSubsampleRatio .sr411 bounds op =
      if bounds.minX % 4 = 0 ∧ bounds.maxX % 4 = 0 ∧ bounds.minY % 2 = 0 ∧
          bounds.maxY % 2 = 0 ∧ op % 2 = 0 then some .sr411 else none := by
  by_cases h1 : bounds.minX % 4 = 0 <;> by_cases h2 : bounds.maxX % 4 = 0 <;>
    by_cases h3 : bounds.minY % 2 = 0 <;> by_cases h4 : bounds.maxY % 2 = 0 <;>
    by_cases h5 : op % 2 = 0 <;>
    simp [rotateYCbCrSubsampleRatio, h1, h2, h3, h4, h5, Nat.and_one_is_mod]

theorem resolver_eq_410 (bounds : Rect) (op : Nat) :
    rotateYCbCrSubsampleRatio .sr410 bounds op =
      if bounds.minX % 4 = 0 ∧ bounds.maxX % 4 = 0 ∧ bounds.minY % 2 = 0 ∧
          bounds.maxY % 2 = 0 ∧ op % 2 = 0 then some .sr410 else none := by
  by_cases h1 : bounds.minX % 4 = 0 <;> by_cases h2 : bounds.maxX % 4 = 0 <;>
    by_cases h3 : bounds.minY % 2 = 0 <;> by_cases h4 : bounds.maxY % 2 = 0 <;>
    by_cases h5 : op % 2 = 0 <;>
    simp [rotateYCbCrSubsampleRatio, h1, h2, h3, h4, h5, Nat.and_one_is_mod]

/-- C3 counterexample: rectangle (0,0)-(4,1) has X edges that are multiples
of 4, and operation 2 (Rotate180) is not rotational, yet the resolver
rejects the 4:1:1 ratio — because the code also demands even Y edges for
4:1:1, not only for 4:1:0 as the claim states. -/
theorem C3_cex :
    rotateYCbCrSubsampleRatio .sr411 ⟨0, 0, 4, 1⟩ 2 = none ∧
    (0 : Int) % 4 = 0 ∧ (4 : Int) % 4 = 0 ∧ (2 : Nat) % 2 = 0 := by decide

/-- C3 (amended): the resolver accepts a 4:1:1 image exactly when both X
edges are multiples of 4, both Y edges are even (the same requirement as
4:1:0), and the operation is not rotational; 4:1:0 behaves identically; any
rotational operation on either ratio takes the lazy fallback path. -/
theorem C3_thm (bounds : Rect) (op : Nat) :
    (rotateYCbCrSubsampleRatio .sr411 bounds op =
      if bounds.minX % 4 = 0 ∧ bounds.maxX % 4 = 0 ∧ bounds.minY % 2 = 0 ∧
          bounds.maxY % 2 = 0 ∧ op % 2 = 0 then some .sr411 else none) ∧
    (rotateYCbCrSubsampleRatio .sr410 bounds op =
      if bounds.minX % 4 = 0 ∧ bounds.maxX % 4 = 0 ∧ bounds.minY % 2 = 0 ∧
          bounds.maxY % 2 = 0 ∧ op % 2 = 0 then some .sr410 else none) ∧
    (op % 2 = 1 → rotateYCbCrSubsampleRatio .sr411 bounds op = none ∧
      rotateYCbCrSubsampleRatio .sr410 bounds op = none) := by
  refine ⟨resolver_eq_411 bounds op, resolver_eq_410 bounds op, fun hrot => ⟨?_, ?_⟩⟩
  · rw [resolver_eq_411, if_neg]
    omega
  · rw [resolver_eq_410, if_neg]
    omega

/-- C4: resolver behavior on the 2:2 (422), 4:4:0 (440), 4:2:0 (420) and
4:4:4 (444) ratios: 422 needs even X edges and swaps to 440 under rotation;
440 is symmetric; 420 needs all four edges even and never changes; 444 is
always accepted unchanged. -/
theorem C4_thm (bounds : Rect) (op : Nat) :
    (rotateYCbCrSubsampleRatio .sr422 bounds op =
      if bounds.minX % 2 = 0 ∧ bounds.maxX % 2 = 0 then
        some (if op % 2 = 1 then .sr440 else .sr422) else none) ∧
    (rotateYCbCrSubsampleRatio .sr440 bounds op =
      if bounds.minY % 2 = 0 ∧ bounds.maxY % 2 = 0 then
        some (if op % 2 = 1 then .sr422 else .sr440) else none) ∧
    (rotateYCbCrSubsampleRatio .sr420 bounds op =
      if bounds.minX % 2 = 0 ∧ bounds.maxX % 2 = 0 ∧ bounds.minY % 2 = 0 ∧
          bounds.maxY % 2 = 0 then some .sr420 else none) ∧
    rotateYCbCrSubsampleRatio .sr444 bounds op = some .sr444 := by
  refine ⟨?_, ?_, ?_, rfl⟩ <;>
    by_cases h1 : bounds.minX % 2 = 0 <;> by_cases h2 : bounds.maxX % 2 = 0 <;>
    by_cases h3 : bounds.minY % 2 = 0 <;> by_cases h4 : bounds.maxY % 2 = 0 <;>
    rcases Nat.mod_two_eq_zero_or_one op with h5 | h5 <;>
    simp [rotateYCbCrSubsampleRatio, h1, h2, h3, h4, h5, Nat.and_one_is_mod]

/-- C5 counterexample: with a negative bytes-per-pixel count (-1) and a
negative source width (-1), the contiguous branch (taken because
`dst_x_offset = bpp`) copies `src_width*bpp = 1` byte per row while the
generic branch copies nothing, so the two code paths differ. -/
theorem C5_cex :
    rotateFlip (fun _ => 0) 1 1 1 (fun _ => 7) 1 (-1) 1 0 (-1) 0 = 7 ∧
    rotateFlipPerPixel (fun _ => 0) 1 1 1 (fun _ => 7) 1 (-1) 1 0 (-1) 0 = 0 := by
  decide

/-- C5 (amended): for every destination/source buffer, stride, width,
height, operation, and every non-negative bytes-per-pixel count (the code
only ever passes 1, 2, 4 or 8), `rotateFlip` — which takes the contiguous
row-copy branch whenever the destination x-offset equals `bpp` — writes
exactly the same destination contents as the always-per-pixel variant. -/
theorem C5_thm (dst : Buf) (ds dw dh : Int) (src : Buf) (ss sw sh : Int) (op : Nat)
    (bpp : Int) (h : 0 ≤ bpp) :
    rotateFlip dst ds dw dh src ss sw sh op bpp =
      rotateFlipPerPixel dst ds dw dh src ss sw sh op bpp :=
  rotateFlip_eq_perPixel dst ds dw dh src ss sw sh op bpp h

/-- C5 witness: the two paths agree on a concrete 2×2, bpp-1 instance. -/
theorem C5_wit :
    rotateFlip (fun _ => 0) 2 2 2 (fun a => a.toNat) 2 2 2 4 1 =
      rotateFlipPerPixel (fun _ => 0) 2 2 2 (fun a => a.toNat) 2 2 2 4 1 :=
  C5_thm (fun _ => 0) 2 2 2 (fun a => a.toNat) 2 2 2 4 1 (by norm_num)

end rotateflip

namespace rotateflip

theorem godiv_bounds2 (a : Int) (h : 0 ≤ a) : 2 * godiv a 2 ≤ a ∧ a < 2 * godiv a 2 + 2 := by
  unfold godiv
  rw [Int.tdiv_eq_ediv h (by norm_num)]
  omega

theorem godiv_bounds4 (a : Int) (h : 0 ≤ a) : 4 * godiv a 4 ≤ a ∧ a < 4 * godiv a 4 + 4 := by
  unfold godiv
  rw [Int.tdiv_eq_ediv h (by norm_num)]
  omega

theorem godiv_zero_two : godiv 0 2 = 0 := rfl

theorem godiv_zero_four : godiv 0 4 = 0 := rfl

theorem yCbCrSize_w (r : Rect) (sr : SubsampleRatio) : (yCbCrSize r sr).1 = r.Dx := by
  cases sr <;> rfl

theorem rotateBounds_minX (r : Rect) (op : Nat) : (rotateBounds r op).minX = 0 := by
  unfold rotateBounds
  split <;> rfl

theorem rotateBounds_minY (r : Rect) (op : Nat) : (rotateBounds r op).minY = 0 := by
  unfold rotateBounds
  split <;> rfl

theorem rotateBounds_Dx (r : Rect) (op : Nat) :
    (rotateBounds r op).Dx = if op &&& 1 != 0 then r.Dy else r.Dx := by
  unfold rotateBounds
  split <;> simp [Rect.Dx]

theorem rotateBounds_Dy (r : Rect) (op : Nat) :
    (rotateBounds r op).Dy = if op &&& 1 != 0 then r.Dx else r.Dy := by
  unfold rotateBounds
  split <;> simp [Rect.Dy]

theorem rotateBounds_maxX (r : Rect) (op : Nat) :
    (rotateBounds r op).maxX = (rotateBounds r op).Dx := by
  unfold rotateBounds
  split <;> simp [Rect.Dx]

theorem rotateBounds_maxY (r : Rect) (op : Nat) :
    (rotateBounds r op).maxY = (rotateBounds r op).Dy := by
  unfold rotateBounds
  split <;> simp [Rect.Dy]

theorem view_atBytes (s : AnyImage) (op : Nat) (x y : Int) :
    (AnyImage.view s op).atBytes x y =
      s.atBytes (atMap s.bounds op x y).1 (atMap s.bounds op x y).2 := by
  rcases op with _ | _ | _ | _ | _ | _ | _ | _ | n <;> rfl

theorem atMap_mem (r : Rect) (op : Nat) (hop : op < 8) (x y : Int)
    (hm : (rotateBounds r op).Mem x y) :
    r.Mem (atMap r op x y).1 (atMap r op x y).2 := by
  rw [rotateBounds_ite] at hm
  interval_cases op <;>
    simp only [atMap, Rect.Mem, Rect.Dx, Rect.Dy] at hm ⊢ <;> norm_num at hm <;> omega

theorem invMap_atMap (r : Rect) (op : Nat) (hop : op < 8) (x y : Int) :
    invMap op r.Dx r.Dy x y = ((atMap r op x y).1 - r.minX, (atMap r op x y).2 - r.minY) := by
  interval_cases op <;>
    simp only [invMap, atMap, Rect.Dx, Rect.Dy, Prod.mk.injEq] <;> constructor <;> ring

/-- Bridge form of `rotateFlip_read`: with all the shapes supplied as
equations, so that it can be applied to any syntactic presentation of a
fast-path plane copy. -/
theorem plane_read (pp : Buf) (ds ss w' h' dw' dh' X Y u v A B bpp b : Int) (op : Nat)
    (hop : op < 8) (hbpp : 0 < bpp)
    (hds : ds = bpp * dw')
    (hdw : dw' = if op &&& 1 != 0 then h' else w')
    (hdh : dh' = if op &&& 1 != 0 then w' else h')
    (hX0 : 0 ≤ X) (hX1 : X < dw') (hY0 : 0 ≤ Y) (hY1 : Y < dh')
    (hb0 : 0 ≤ b) (hb1 : b < bpp)
    (huv : invMap op w' h' X Y = (u, v))
    (hA : A = Y * (bpp * dw') + X * bpp + b) (hB : B = v * ss + u * bpp + b) :
    rotateFlip (fun _ => 0) ds dw' dh' pp ss w' h' op bpp A = pp B := by
  subst hds hA hB
  have key := rotateFlip_read (fun _ => 0) pp ss bpp w' h' dw' dh' X Y b op hop hbpp hdw hdh
    hX0 hX1 hY0 hY1 hb0 hb1
  rw [huv] at key
  simpa using key

/-- `plane_read` at one byte per pixel (every planar plane copy). -/
theorem plane_read1 (pp : Buf) (ds ss w' h' dw' dh' X Y u v A B : Int) (op : Nat)
    (hop : op < 8)
    (hds : ds = dw')
    (hdw : dw' = if op &&& 1 != 0 then h' else w')
    (hdh : dh' = if op &&& 1 != 0 then w' else h')
    (hX0 : 0 ≤ X) (hX1 : X < dw') (hY0 : 0 ≤ Y) (hY1 : Y < dh')
    (huv : invMap op w' h' X Y = (u, v))
    (hA : A = Y * dw' + X) (hB : B = v * ss + u) :
    rotateFlip (fun _ => 0) ds dw' dh' pp ss w' h' op 1 A = pp B := by
  apply plane_read pp ds ss w' h' dw' dh' X Y u v A B 1 0 op hop one_pos (by omega) hdw hdh
    hX0 hX1 hY0 hY1 le_rfl one_pos huv (by rw [hA]; ring) (by rw [hB]; ring)

theorem fastPacked_atBytes (p : Packed) (bpp : Nat) (hbpp : 0 < bpp) (op : Nat) (hop : op < 8)
    (x y : Int) (hm : (rotateBounds p.rect op).Mem x y) :
    (fastPacked p (bpp : Int) op).atBytes bpp x y =
      p.atBytes bpp (atMap p.rect op x y).1 (atMap p.rect op x y).2 := by
  have hm' := atMap_mem p.rect op hop x y hm
  have hx0 : 0 ≤ x := by
    have := hm.1
    rwa [rotateBounds_minX] at this
  have hy0 : 0 ≤ y := by
    have := hm.2.2.1
    rwa [rotateBounds_minY] at this
  have hx1 : x < (rotateBounds p.rect op).Dx := by
    have := hm.2.1
    rwa [rotateBounds_maxX] at this
  have hy1 : y < (rotateBounds p.rect op).Dy := by
    have := hm.2.2.2
    rwa [rotateBounds_maxY] at this
  unfold Packed.atBytes
  rw [if_pos (show (fastPacked p (bpp : Int) op).rect.Mem x y from hm), if_pos hm']
  apply List.map_congr_left
  intro b hb
  have hbb : b < bpp := List.mem_range.mp hb
  show rotateFlip (fun _ => 0) ((bpp : Int) * (rotateBounds p.rect op).Dx)
      (rotateBounds p.rect op).Dx (rotateBounds p.rect op).Dy p.pix p.stride
      p.rect.Dx p.rect.Dy op bpp ((fastPacked p (bpp : Int) op).pixOffset bpp x y + b) =
    p.pix (p.pixOffset bpp (atMap p.rect op x y).1 (atMap p.rect op x y).2 + b)
  apply plane_read p.pix _ p.stride p.rect.Dx p.rect.Dy (rotateBounds p.rect op).Dx
    (rotateBounds p.rect op).Dy x y ((atMap p.rect op x y).1 - p.rect.minX)
    ((atMap p.rect op x y).2 - p.rect.minY) _ _ bpp b op hop (by exact_mod_cast hbpp) rfl
    (rotateBounds_Dx p.rect op) (rotateBounds_Dy p.rect op) hx0 hx1 hy0 hy1
    (by exact_mod_cast Nat.zero_le b) (by exact_mod_cast hbb)
    (invMap_atMap p.rect op hop x y)
  · show (fastPacked p (bpp : Int) op).pixOffset bpp x y + b =
      y * ((bpp : Int) * (rotateBounds p.rect op).Dx) + x * bpp + b
    unfold Packed.pixOffset fastPacked newPacked
    simp only [rotateBounds_minX, rotateBounds_minY]
    ring
  · unfold Packed.pixOffset
    ring

end rotateflip

namespace rotateflip

theorem and_one_bne (op : Nat) : (op &&& 1 != 0) = decide (op % 2 = 1) := by
  rw [Nat.and_one_is_mod]
  rcases Nat.mod_two_eq_zero_or_one op with h | h <;> simp [h]

theorem dstC_stride (r : Rect) (sr : SubsampleRatio) (h0X : r.minX = 0) (h0Y : r.minY = 0) :
    (yCbCrSize r sr).2.2.1 = (subsampledBounds r sr).Dx := by
  cases sr <;>
    simp [yCbCrSize, subsampledBounds, Rect.Dx, h0X, h0Y, godiv_zero_two, godiv_zero_four]

theorem cmap_420 (r : Rect) (op : Nat) (hop : op < 8)
    (e1 : r.minX % 2 = 0) (e2 : r.maxX % 2 = 0) (e3 : r.minY % 2 = 0) (e4 : r.maxY % 2 = 0)
    (hnX : 0 ≤ r.minX) (hnY : 0 ≤ r.minY) (x y : Int)
    (hx0 : 0 ≤ x) (hy0 : 0 ≤ y)
    (hx1 : x < if op % 2 = 1 then r.Dy else r.Dx)
    (hy1 : y < if op % 2 = 1 then r.Dx else r.Dy)
    (hm' : r.Mem (atMap r op x y).1 (atMap r op x y).2) :
    invMap op (godiv (r.maxX + 1) 2 - godiv r.minX 2) (godiv (r.maxY + 1) 2 - godiv r.minY 2)
        (godiv x 2) (godiv y 2) =
      (godiv (atMap r op x y).1 2 - godiv r.minX 2,
       godiv (atMap r op x y).2 2 - godiv r.minY 2) := by
  have s1 := godiv_bounds2 x hx0
  have s2 := godiv_bounds2 y hy0
  have s3 := godiv_bounds2 r.minX hnX
  have s4 := godiv_bounds2 r.minY hnY
  have s5 := godiv_bounds2 (atMap r op x y).1 (le_trans hnX hm'.1)
  have s6 := godiv_bounds2 (atMap r op x y).2 (le_trans hnY hm'.2.2.1)
  have s7 := godiv_bounds2 (r.maxX + 1) (by have h1 := hm'.1; have h2 := hm'.2.1; omega)
  have s8 := godiv_bounds2 (r.maxY + 1) (by have h1 := hm'.2.2.1; have h2 := hm'.2.2.2; omega)
  simp only [Rect.Dx, Rect.Dy] at hx1 hy1
  interval_cases op <;>
    simp only [invMap, atMap, Prod.mk.injEq] at s5 s6 ⊢ <;>
    norm_num at hx1 hy1 <;>
    refine ⟨by omega, by omega⟩

theorem cmap_422_norot (r : Rect) (op : Nat) (hop : op < 8) (hpar : op % 2 = 0)
    (e1 : r.minX % 2 = 0) (e2 : r.maxX % 2 = 0)
    (hnX : 0 ≤ r.minX) (hnY : 0 ≤ r.minY) (x y : Int)
    (hx0 : 0 ≤ x) (hy0 : 0 ≤ y)
    (hx1 : x < if op % 2 = 1 then r.Dy else r.Dx)
    (hy1 : y < if op % 2 = 1 then r.Dx else r.Dy)
    (hm' : r.Mem (atMap r op x y).1 (atMap r op x y).2) :
    invMap op (godiv (r.maxX + 1) 2 - godiv r.minX 2) (r.maxY - r.minY) (godiv x 2) y =
      (godiv (atMap r op x y).1 2 - godiv r.minX 2, (atMap r op x y).2 - r.minY) := by
  have s1 := godiv_bounds2 x hx0
  have s3 := godiv_bounds2 r.minX hnX
  have s5 := godiv_bounds2 (atMap r op x y).1 (le_trans hnX hm'.1)
  have s7 := godiv_bounds2 (r.maxX + 1) (by have h1 := hm'.1; have h2 := hm'.2.1; omega)
  have hmy := hm'.2.2.1
  have hMy := hm'.2.2.2
  simp only [Rect.Dx, Rect.Dy] at hx1 hy1
  interval_cases op <;>
    simp only [invMap, atMap, Prod.mk.injEq] at s5 hmy hMy ⊢ <;>
    norm_num at hx1 hy1 <;>
    refine ⟨by omega, by omega⟩

theorem cmap_422_rot (r : Rect) (op : Nat) (hop : op < 8) (hpar : op % 2 = 1)
    (e1 : r.minX % 2 = 0) (e2 : r.maxX % 2 = 0)
    (hnX : 0 ≤ r.minX) (hnY : 0 ≤ r.minY) (x y : Int)
    (hx0 : 0 ≤ x) (hy0 : 0 ≤ y)
    (hx1 : x < if op % 2 = 1 then r.Dy else r.Dx)
    (hy1 : y < if op % 2 = 1 then r.Dx else r.Dy)
    (hm' : r.Mem (atMap r op x y).1 (atMap r op x y).2) :
    invMap op (godiv (r.maxX + 1) 2 - godiv r.minX 2) (r.maxY - r.minY) x (godiv y 2) =
      (godiv (atMap r op x y).1 2 - godiv r.minX 2, (atMap r op x y).2 - r.minY) := by
  have s2 := godiv_bounds2 y hy0
  have s3 := godiv_bounds2 r.minX hnX
  have s5 := godiv_bounds2 (atMap r op x y).1 (le_trans hnX hm'.1)
  have s7 := godiv_bounds2 (r.maxX + 1) (by have h1 := hm'.1; have h2 := hm'.2.1; omega)
  have hmy := hm'.2.2.1
  have hMy := hm'.2.2.2
  simp only [Rect.Dx, Rect.Dy] at hx1 hy1
  interval_cases op <;>
    simp only [invMap, atMap, Prod.mk.injEq] at s5 hmy hMy ⊢ <;>
    norm_num at hx1 hy1 <;>
    refine ⟨by omega, by omega⟩

theorem cmap_440_norot (r : Rect) (op : Nat) (hop : op < 8) (hpar : op % 2 = 0)
    (e3 : r.minY % 2 = 0) (e4 : r.maxY % 2 = 0)
    (hnX : 0 ≤ r.minX) (hnY : 0 ≤ r.minY) (x y : Int)
    (hx0 : 0 ≤ x) (hy0 : 0 ≤ y)
    (hx1 : x < if op % 2 = 1 then r.Dy else r.Dx)
    (hy1 : y < if op % 2 = 1 then r.Dx else r.Dy)
    (hm' : r.Mem (atMap r op x y).1 (atMap r op x y).2) :
    invMap op (r.maxX - r.minX) (godiv (r.maxY + 1) 2 - godiv r.minY 2) x (godiv y 2) =
      ((atMap r op x y).1 - r.minX, godiv (atMap r op x y).2 2 - godiv r.minY 2) := by
  have s2 := godiv_bounds2 y hy0
  have s4 := godiv_bounds2 r.minY hnY
  have s6 := godiv_bounds2 (atMap r op x y).2 (le_trans hnY hm'.2.2.1)
  have s8 := godiv_bounds2 (r.maxY + 1) (by have h1 := hm'.2.2.1; have h2 := hm'.2.2.2; omega)
  have hmx := hm'.1
  have hMx := hm'.2.1
  simp only [Rect.Dx, Rect.Dy] at hx1 hy1
  interval_cases op <;>
    simp only [invMap, atMap, Prod.mk.injEq] at s6 hmx hMx ⊢ <;>
    norm_num at hx1 hy1 <;>
    refine ⟨by omega, by omega⟩

theorem cmap_440_rot (r : Rect) (op : Nat) (hop : op < 8) (hpar : op % 2 = 1)
    (e3 : r.minY % 2 = 0) (e4 : r.maxY % 2 = 0)
    (hnX : 0 ≤ r.minX) (hnY : 0 ≤ r.minY) (x y : Int)
    (hx0 : 0 ≤ x) (hy0 : 0 ≤ y)
    (hx1 : x < if op % 2 = 1 then r.Dy else r.Dx)
    (hy1 : y < if op % 2 = 1 then r.Dx else r.Dy)
    (hm' : r.Mem (atMap r op x y).1 (atMap r op x y).2) :
    invMap op (r.maxX - r.minX) (godiv (r.maxY + 1) 2 - godiv r.minY 2) (godiv x 2) y =
      ((atMap r op x y).1 - r.minX, godiv (atMap r op x y).2 2 - godiv r.minY 2) := by
  have s1 := godiv_bounds2 x hx0
  have s4 := godiv_bounds2 r.minY hnY
  have s6 := godiv_bounds2 (atMap r op x y).2 (le_trans hnY hm'.2.2.1)
  have s8 := godiv_bounds2 (r.maxY + 1) (by have h1 := hm'.2.2.1; have h2 := hm'.2.2.2; omega)
  have hmx := hm'.1
  have hMx := hm'.2.1
  simp only [Rect.Dx, Rect.Dy] at hx1 hy1
  interval_cases op <;>
    simp only [invMap, atMap, Prod.mk.injEq] at s6 hmx hMx ⊢ <;>
    norm_num at hx1 hy1 <;>
    refine ⟨by omega, by omega⟩

theorem cmap_411 (r : Rect) (op : Nat) (hop : op < 8) (hpar : op % 2 = 0)
    (e1 : r.minX % 4 = 0) (e2 : r.maxX % 4 = 0)
    (hnX : 0 ≤ r.minX) (hnY : 0 ≤ r.minY) (x y : Int)
    (hx0 : 0 ≤ x) (hy0 : 0 ≤ y)
    (hx1 : x < if op % 2 = 1 then r.Dy else r.Dx)
    (hy1 : y < if op % 2 = 1 then r.Dx else r.Dy)
    (hm' : r.Mem (atMap r op x y).1 (atMap r op x y).2) :
    invMap op (godiv (r.maxX + 3) 4 - godiv r.minX 4) (r.maxY - r.minY) (godiv x 4) y =
      (godiv (atMap r op x y).1 4 - godiv r.minX 4, (atMap r op x y).2 - r.minY) := by
  have t1 := godiv_bounds4 x hx0
  have t3 := godiv_bounds4 r.minX hnX
  have t5 := godiv_bounds4 (atMap r op x y).1 (le_trans hnX hm'.1)
  have t7 := godiv_bounds4 (r.maxX + 3) (by have h1 := hm'.1; have h2 := hm'.2.1; omega)
  have hmy := hm'.2.2.1
  have hMy := hm'.2.2.2
  simp only [Rect.Dx, Rect.Dy] at hx1 hy1
  interval_cases op <;>
    simp only [invMap, atMap, Prod.mk.injEq] at t5 hmy hMy ⊢ <;>
    norm_num at hx1 hy1 <;>
    refine ⟨by omega, by omega⟩

theorem cmap_410 (r : Rect) (op : Nat) (hop : op < 8) (hpar : op % 2 = 0)
    (e1 : r.minX % 4 = 0) (e2 : r.maxX % 4 = 0) (e3 : r.minY % 2 = 0) (e4 : r.maxY % 2 = 0)
    (hnX : 0 ≤ r.minX) (hnY : 0 ≤ r.minY) (x y : Int)
    (hx0 : 0 ≤ x) (hy0 : 0 ≤ y)
    (hx1 : x < if op % 2 = 1 then r.Dy else r.Dx)
    (hy1 : y < if op % 2 = 1 then r.Dx else r.Dy)
    (hm' : r.Mem (atMap r op x y).1 (atMap r op x y).2) :
    invMap op (godiv (r.maxX + 3) 4 - godiv r.minX 4) (godiv (r.maxY + 1) 2 - godiv r.minY 2)
        (godiv x 4) (godiv y 2) =
      (godiv (atMap r op x y).1 4 - godiv r.minX 4,
       godiv (atMap r op x y).2 2 - godiv r.minY 2) := by
  have t1 := godiv_bounds4 x hx0
  have t3 := godiv_bounds4 r.minX hnX
  have t5 := godiv_bounds4 (atMap r op x y).1 (le_trans hnX hm'.1)
  have t7 := godiv_bounds4 (r.maxX + 3) (by have h1 := hm'.1; have h2 := hm'.2.1; omega)
  have s2 := godiv_bounds2 y hy0
  have s4 := godiv_bounds2 r.minY hnY
  have s6 := godiv_bounds2 (atMap r op x y).2 (le_trans hnY hm'.2.2.1)
  have s8 := godiv_bounds2 (r.maxY + 1) (by have h1 := hm'.2.2.1; have h2 := hm'.2.2.2; omega)
  simp only [Rect.Dx, Rect.Dy] at hx1 hy1
  interval_cases op <;>
    simp only [invMap, atMap, Prod.mk.injEq] at t5 s6 ⊢ <;>
    norm_num at hx1 hy1 <;>
    refine ⟨by omega, by omega⟩

end rotateflip

namespace rotateflip

set_option maxHeartbeats 1600000 in
/-- Chroma-plane correctness of the YCbCr fast path: for a source the
resolver accepts (with non-negative bounds minimum), reading the destination
chroma plane at the destination chroma offset of `(x, y)` yields the source
chroma byte at the source chroma offset of the inverse-mapped coordinate. -/
theorem chroma_read (p : YCbCr) (op : Nat) (hop : op < 8) (sr' : SubsampleRatio)
    (hres : rotateYCbCrSubsampleRatio p.subsampleRatio p.rect op = some sr')
    (hnX : 0 ≤ p.rect.minX) (hnY : 0 ≤ p.rect.minY)
    (x y : Int) (hm : (rotateBounds p.rect op).Mem x y) (cp : Buf) :
    rotateFlip (fun _ => 0) ((yCbCrSize (rotateBounds p.rect op) sr').2.2.1)
        (subsampledBounds (rotateBounds p.rect op) sr').Dx
        (subsampledBounds (rotateBounds p.rect op) sr').Dy
        cp p.cStride
        (subsampledBounds p.rect p.subsampleRatio).Dx
        (subsampledBounds p.rect p.subsampleRatio).Dy op 1
        ((newYCbCr (rotateBounds p.rect op) sr').cOffset x y)
      = cp (p.cOffset (atMap p.rect op x y).1 (atMap p.rect op x y).2) := by
  have hm' := atMap_mem p.rect op hop x y hm
  rw [rotateBounds_ite] at hm
  obtain ⟨hx0, hx1, hy0, hy1⟩ := hm
  simp only at hx0 hx1 hy0 hy1
  have s1 := godiv_bounds2 x hx0
  have s2 := godiv_bounds2 y hy0
  have s3 := godiv_bounds2 p.rect.minX hnX
  have s4 := godiv_bounds2 p.rect.minY hnY
  have s7 := godiv_bounds2 (p.rect.maxX + 1) (by have h1 := hm'.1; have h2 := hm'.2.1; omega)
  have s8 := godiv_bounds2 (p.rect.maxY + 1)
    (by have h1 := hm'.2.2.1; have h2 := hm'.2.2.2; omega)
  have s9 := godiv_bounds2 (p.rect.maxX - p.rect.minX + 1)
    (by have h1 := hm'.1; have h2 := hm'.2.1; omega)
  have s10 := godiv_bounds2 (p.rect.maxY - p.rect.minY + 1)
    (by have h1 := hm'.2.2.1; have h2 := hm'.2.2.2; omega)
  have t1 := godiv_bounds4 x hx0
  have t3 := godiv_bounds4 p.rect.minX hnX
  have t7 := godiv_bounds4 (p.rect.maxX + 3) (by have h1 := hm'.1; have h2 := hm'.2.1; omega)
  have t9 := godiv_bounds4 (p.rect.maxX - p.rect.minX + 3)
    (by have h1 := hm'.1; have h2 := hm'.2.1; omega)
  rcases hsr : p.subsampleRatio with _ | _ | _ | _ | _ | _
  case sr444 =>
    rw [hsr] at hres
    simp only [rotateYCbCrSubsampleRatio] at hres
    obtain rfl : sr' = .sr444 := by
      injection hres with h
      exact h.symm
    have hK : invMap op (p.rect.maxX - p.rect.minX) (p.rect.maxY - p.rect.minY) x y =
        ((atMap p.rect op x y).1 - p.rect.minX, (atMap p.rect op x y).2 - p.rect.minY) := by
      simpa [Rect.Dx, Rect.Dy] using invMap_atMap p.rect op hop x y
    simp only [rotateBounds_ite, subsampledBounds, yCbCrSize, newYCbCr, YCbCr.cOffset, hsr,
      Rect.Dx, Rect.Dy, add_zero, godiv_zero_two, godiv_zero_four, sub_zero]
    by_cases hpar : op % 2 = 1
    · simp only [if_pos hpar, Rect.Dx, Rect.Dy] at hx1 hy1 ⊢
      apply plane_read1 cp _ p.cStride _ _ _ _ x y _ _ _ _ op hop rfl
        (by rw [and_one_bne]; simp [hpar]) (by rw [and_one_bne]; simp [hpar])
        (by omega) (by omega) (by omega) (by omega) hK rfl rfl
    · simp only [if_neg hpar, Rect.Dx, Rect.Dy] at hx1 hy1 ⊢
      apply plane_read1 cp _ p.cStride _ _ _ _ x y _ _ _ _ op hop rfl
        (by rw [and_one_bne]; simp [hpar]) (by rw [and_one_bne]; simp [hpar])
        (by omega) (by omega) (by omega) (by omega) hK rfl rfl
  case sr420 =>
    rw [hsr] at hres
    simp only [rotateYCbCrSubsampleRatio] at hres
    by_cases hc : p.rect.minX % 2 ≠ 0 ∨ p.rect.maxX % 2 ≠ 0 ∨
        p.rect.minY % 2 ≠ 0 ∨ p.rect.maxY % 2 ≠ 0
    · rw [if_pos hc] at hres
      exact absurd hres (by simp)
    rw [if_neg hc] at hres
    push_neg at hc
    obtain ⟨e1, e2, e3, e4⟩ := hc
    obtain rfl : sr' = .sr420 := by
      injection hres with h
      exact h.symm
    have hK := cmap_420 p.rect op hop e1 e2 e3 e4 hnX hnY x y hx0 hy0 hx1 hy1 hm'
    simp only [rotateBounds_ite, subsampledBounds, yCbCrSize, newYCbCr, YCbCr.cOffset, hsr,
      Rect.Dx, Rect.Dy, add_zero, godiv_zero_two, godiv_zero_four, sub_zero]
    by_cases hpar : op % 2 = 1
    · simp only [if_pos hpar, Rect.Dx, Rect.Dy] at hx1 hy1 ⊢
      apply plane_read1 cp _ p.cStride _ _ _ _ (godiv x 2) (godiv y 2) _ _ _ _ op hop rfl
        (by rw [and_one_bne]; simp [hpar]; omega) (by rw [and_one_bne]; simp [hpar]; omega)
        (by omega) (by omega) (by omega) (by omega) hK rfl rfl
    · simp only [if_neg hpar, Rect.Dx, Rect.Dy] at hx1 hy1 ⊢
      apply plane_read1 cp _ p.cStride _ _ _ _ (godiv x 2) (godiv y 2) _ _ _ _ op hop rfl
        (by rw [and_one_bne]; simp [hpar]; omega) (by rw [and_one_bne]; simp [hpar]; omega)
        (by omega) (by omega) (by omega) (by omega) hK rfl rfl
  case sr422 =>
    rw [hsr] at hres
    simp only [rotateYCbCrSubsampleRatio] at hres
    by_cases hc : p.rect.minX % 2 ≠ 0 ∨ p.rect.maxX % 2 ≠ 0
    · rw [if_pos hc] at hres
      exact absurd hres (by simp)
    rw [if_neg hc] at hres
    push_neg at hc
    obtain ⟨e1, e2⟩ := hc
    rw [and_one_bne] at hres
    by_cases hpar : op % 2 = 1
    · simp only [hpar, decide_True] at hres
      simp only [if_true] at hres
      obtain rfl : sr' = .sr440 := by
        injection hres with h
        exact h.symm
      have hK := cmap_422_rot p.rect op hop hpar e1 e2 hnX hnY x y hx0 hy0 hx1 hy1 hm'
      simp only [rotateBounds_ite, subsampledBounds, yCbCrSize, newYCbCr, YCbCr.cOffset, hsr,
        Rect.Dx, Rect.Dy, add_zero, godiv_zero_two, godiv_zero_four, sub_zero]
      simp only [if_pos hpar, Rect.Dx, Rect.Dy] at hx1 hy1 ⊢
      apply plane_read1 cp _ p.cStride _ _ _ _ x (godiv y 2) _ _ _ _ op hop rfl
        (by rw [and_one_bne]; simp [hpar]) (by rw [and_one_bne]; simp [hpar]; omega)
        (by omega) (by omega) (by omega) (by omega) hK rfl rfl
    · simp only [hpar, decide_False] at hres
      replace hpar : op % 2 = 0 := by omega
      obtain rfl : sr' = .sr422 := by
        injection hres with h
        exact h.symm
      have hK := cmap_422_norot p.rect op hop hpar e1 e2 hnX hnY x y hx0 hy0 hx1 hy1 hm'
      simp only [rotateBounds_ite, subsampledBounds, yCbCrSize, newYCbCr, YCbCr.cOffset, hsr,
        Rect.Dx, Rect.Dy, add_zero, godiv_zero_two, godiv_zero_four, sub_zero]
      simp only [if_neg (show ¬ op % 2 = 1 from by omega), Rect.Dx, Rect.Dy] at hx1 hy1 ⊢
      apply plane_read1 cp _ p.cStride _ _ _ _ (godiv x 2) y _ _ _ _ op hop rfl
        (by rw [and_one_bne]; simp [hpar]; omega) (by rw [and_one_bne]; simp [hpar])
        (by omega) (by omega) (by omega) (by omega) hK rfl rfl
  case sr440 =>
    rw [hsr] at hres
    simp only [rotateYCbCrSubsampleRatio] at hres
    by_cases hc : p.rect.minY % 2 ≠ 0 ∨ p.rect.maxY % 2 ≠ 0
    · rw [if_pos hc] at hres
      exact absurd hres (by simp)
    rw [if_neg hc] at hres
    push_neg at hc
    obtain ⟨e3, e4⟩ := hc
    rw [and_one_bne] at hres
    by_cases hpar : op % 2 = 1
    · simp only [hpar, decide_True] at hres
      simp only [if_true] at hres
      obtain rfl : sr' = .sr422 := by
        injection hres with h
        exact h.symm
      have hK := cmap_440_rot p.rect op hop hpar e3 e4 hnX hnY x y hx0 hy0 hx1 hy1 hm'
      simp only [rotateBounds_ite, subsampledBounds, yCbCrSize, newYCbCr, YCbCr.cOffset, hsr,
        Rect.Dx, Rect.Dy, add_zero, godiv_zero_two, godiv_zero_four, sub_zero]
      simp only [if_pos hpar, Rect.Dx, Rect.Dy] at hx1 hy1 ⊢
      apply plane_read1 cp _ p.cStride _ _ _ _ (godiv x 2) y _ _ _ _ op hop rfl
        (by rw [and_one_bne]; simp [hpar]; omega) (by rw [and_one_bne]; simp [hpar])
        (by omega) (by omega) (by omega) (by omega) hK rfl rfl
    · simp only [hpar, decide_False] at hres
      replace hpar : op % 2 = 0 := by omega
      obtain rfl : sr' = .sr440 := by
        injection hres with h
        exact h.symm
      have hK := cmap_440_norot p.rect op hop hpar e3 e4 hnX hnY x y hx0 hy0 hx1 hy1 hm'
      simp only [rotateBounds_ite, subsampledBounds, yCbCrSize, newYCbCr, YCbCr.cOffset, hsr,
        Rect.Dx, Rect.Dy, add_zero, godiv_zero_two, godiv_zero_four, sub_zero]
      simp only [if_neg (show ¬ op % 2 = 1 from by omega), Rect.Dx, Rect.Dy] at hx1 hy1 ⊢
      apply plane_read1 cp _ p.cStride _ _ _ _ x (godiv y 2) _ _ _ _ op hop rfl
        (by rw [and_one_bne]; simp [hpar]) (by rw [and_one_bne]; simp [hpar]; omega)
        (by omega) (by omega) (by omega) (by omega) hK rfl rfl
  case sr411 =>
    rw [hsr] at hres
    simp only [rotateYCbCrSubsampleRatio] at hres
    by_cases hc : p.rect.minX % 4 ≠ 0 ∨ p.rect.maxX % 4 ≠ 0
    · rw [if_pos hc] at hres
      exact absurd hres (by simp)
    rw [if_neg hc] at hres
    by_cases hc2 : p.rect.minY % 2 ≠ 0 ∨ p.rect.maxY % 2 ≠ 0
    · rw [if_pos hc2] at hres
      exact absurd hres (by simp)
    rw [if_neg hc2] at hres
    push_neg at hc hc2
    obtain ⟨e1, e2⟩ := hc
    rw [and_one_bne] at hres
    by_cases hpar : op % 2 = 1
    · simp only [hpar, decide_True] at hres
      simp only [if_true] at hres
      exact absurd hres (by simp)
    · simp only [hpar, decide_False] at hres
      replace hpar : op % 2 = 0 := by omega
      obtain rfl : sr' = .sr411 := by
        injection hres with h
        exact h.symm
      have hK := cmap_411 p.rect op hop hpar e1 e2 hnX hnY x y hx0 hy0 hx1 hy1 hm'
      simp only [rotateBounds_ite, subsampledBounds, yCbCrSize, newYCbCr, YCbCr.cOffset, hsr,
        Rect.Dx, Rect.Dy, add_zero, godiv_zero_two, godiv_zero_four, sub_zero]
      simp only [if_neg (show ¬ op % 2 = 1 from by omega), Rect.Dx, Rect.Dy] at hx1 hy1 ⊢
      apply plane_read1 cp _ p.cStride _ _ _ _ (godiv x 4) y _ _ _ _ op hop rfl
        (by rw [and_one_bne]; simp [hpar]; omega) (by rw [and_one_bne]; simp [hpar])
        (by omega) (by omega) (by omega) (by omega) hK rfl rfl
  case sr410 =>
    rw [hsr] at hres
    simp only [rotateYCbCrSubsampleRatio] at hres
    by_cases hc : p.rect.minX % 4 ≠ 0 ∨ p.rect.maxX % 4 ≠ 0
    · rw [if_pos hc] at hres
      exact absurd hres (by simp)
    rw [if_neg hc] at hres
    by_cases hc2 : p.rect.minY % 2 ≠ 0 ∨ p.rect.maxY % 2 ≠ 0
    · rw [if_pos hc2] at hres
      exact absurd hres (by simp)
    rw [if_neg hc2] at hres
    push_neg at hc hc2
    obtain ⟨e1, e2⟩ := hc
    obtain ⟨e3, e4⟩ := hc2
    rw [and_one_bne] at hres
    by_cases hpar : op % 2 = 1
    · simp only [hpar, decide_True] at hres
      simp only [if_true] at hres
      exact absurd hres (by simp)
    · simp only [hpar, decide_False] at hres
      replace hpar : op % 2 = 0 := by omega
      obtain rfl : sr' = .sr410 := by
        injection hres with h
        exact h.symm
      have hK := cmap_410 p.rect op hop hpar e1 e2 e3 e4 hnX hnY x y hx0 hy0 hx1 hy1 hm'
      simp only [rotateBounds_ite, subsampledBounds, yCbCrSize, newYCbCr, YCbCr.cOffset, hsr,
        Rect.Dx, Rect.Dy, add_zero, godiv_zero_two, godiv_zero_four, sub_zero]
      simp only [if_neg (show ¬ op % 2 = 1 from by omega), Rect.Dx, Rect.Dy] at hx1 hy1 ⊢
      apply plane_read1 cp _ p.cStride _ _ _ _ (godiv x 4) (godiv y 2) _ _ _ _ op hop rfl
        (by rw [and_one_bne]; simp [hpar]; omega) (by rw [and_one_bne]; simp [hpar]; omega)
        (by omega) (by omega) (by omega) (by omega) hK rfl rfl

end rotateflip

namespace rotateflip

theorem fastYCbCr_atBytes (p : YCbCr) (op : Nat) (hop : op < 8) (sr' : SubsampleRatio)
    (hres : rotateYCbCrSubsampleRatio p.subsampleRatio p.rect op = some sr')
    (hnX : 0 ≤ p.rect.minX) (hnY : 0 ≤ p.rect.minY)
    (x y : Int) (hm : (rotateBounds p.rect op).Mem x y) :
    (fastYCbCr p op sr').atBytes x y =
      p.atBytes (atMap p.rect op x y).1 (atMap p.rect op x y).2 := by
  have hm' := atMap_mem p.rect op hop x y hm
  have hx0 : 0 ≤ x := by
    have := hm.1
    rwa [rotateBounds_minX] at this
  have hy0 : 0 ≤ y := by
    have := hm.2.2.1
    rwa [rotateBounds_minY] at this
  have hx1 : x < (rotateBounds p.rect op).Dx := by
    have := hm.2.1
    rwa [rotateBounds_maxX] at this
  have hy1 : y < (rotateBounds p.rect op).Dy := by
    have := hm.2.2.2
    rwa [rotateBounds_maxY] at this
  have hY : (fastYCbCr p op sr').yPlane ((fastYCbCr p op sr').yOffset x y) =
      p.yPlane (p.yOffset (atMap p.rect op x y).1 (atMap p.rect op x y).2) := by
    apply plane_read1 p.yPlane ((yCbCrSize (rotateBounds p.rect op) sr').1) p.yStride
      p.rect.Dx p.rect.Dy (rotateBounds p.rect op).Dx (rotateBounds p.rect op).Dy x y
      ((atMap p.rect op x y).1 - p.rect.minX) ((atMap p.rect op x y).2 - p.rect.minY)
      ((fastYCbCr p op sr').yOffset x y)
      (p.yOffset (atMap p.rect op x y).1 (atMap p.rect op x y).2) op hop
      (yCbCrSize_w (rotateBounds p.rect op) sr')
      (rotateBounds_Dx p.rect op) (rotateBounds_Dy p.rect op) hx0 hx1 hy0 hy1
      (invMap_atMap p.rect op hop x y)
    · show (y - (rotateBounds p.rect op).minY) * (yCbCrSize (rotateBounds p.rect op) sr').1 +
          (x - (rotateBounds p.rect op).minX) = y * (rotateBounds p.rect op).Dx + x
      rw [rotateBounds_minX, rotateBounds_minY, yCbCrSize_w]
      ring
    · show (_ - p.rect.minY) * p.yStride + (_ - p.rect.minX) = _
      ring
  have hCb : (fastYCbCr p op sr').cbPlane ((fastYCbCr p op sr').cOffset x y) =
      p.cbPlane (p.cOffset (atMap p.rect op x y).1 (atMap p.rect op x y).2) := by
    have hoff : (fastYCbCr p op sr').cOffset x y =
        (newYCbCr (rotateBounds p.rect op) sr').cOffset x y := rfl
    rw [hoff]
    exact chroma_read p op hop sr' hres hnX hnY x y hm p.cbPlane
  have hCr : (fastYCbCr p op sr').crPlane ((fastYCbCr p op sr').cOffset x y) =
      p.crPlane (p.cOffset (atMap p.rect op x y).1 (atMap p.rect op x y).2) := by
    have hoff : (fastYCbCr p op sr').cOffset x y =
        (newYCbCr (rotateBounds p.rect op) sr').cOffset x y := rfl
    rw [hoff]
    exact chroma_read p op hop sr' hres hnX hnY x y hm p.crPlane
  unfold YCbCr.atBytes
  rw [if_pos (show (fastYCbCr p op sr').rect.Mem x y from hm), if_pos hm', hY, hCb, hCr]

end rotateflip

namespace rotateflip

theorem fastNYCbCrA_atBytes (p : NYCbCrA) (op : Nat) (hop : op < 8) (sr' : SubsampleRatio)
    (hres : rotateYCbCrSubsampleRatio p.ycbcr.subsampleRatio p.ycbcr.rect op = some sr')
    (hnX : 0 ≤ p.ycbcr.rect.minX) (hnY : 0 ≤ p.ycbcr.rect.minY)
    (x y : Int) (hm : (rotateBounds p.ycbcr.rect op).Mem x y) :
    (fastNYCbCrA p op sr').atBytes x y =
      p.atBytes (atMap p.ycbcr.rect op x y).1 (atMap p.ycbcr.rect op x y).2 := by
  have hm' := atMap_mem p.ycbcr.rect op hop x y hm
  have hx0 : 0 ≤ x := by
    have := hm.1
    rwa [rotateBounds_minX] at this
  have hy0 : 0 ≤ y := by
    have := hm.2.2.1
    rwa [rotateBounds_minY] at this
  have hx1 : x < (rotateBounds p.ycbcr.rect op).Dx := by
    have := hm.2.1
    rwa [rotateBounds_maxX] at this
  have hy1 : y < (rotateBounds p.ycbcr.rect op).Dy := by
    have := hm.2.2.2
    rwa [rotateBounds_maxY] at this
  have hfa := fastYCbCr_atBytes p.ycbcr op hop sr' hres hnX hnY x y hm
  unfold YCbCr.atBytes at hfa
  rw [if_pos (show (fastYCbCr p.ycbcr op sr').rect.Mem x y from hm), if_pos hm'] at hfa
  simp only [List.cons.injEq, and_true] at hfa
  obtain ⟨hY, hCb, hCr⟩ := hfa
  have hA : (fastNYCbCrA p op sr').aPlane ((fastNYCbCrA p op sr').aOffset x y) =
      p.aPlane (p.aOffset (atMap p.ycbcr.rect op x y).1 (atMap p.ycbcr.rect op x y).2) := by
    apply plane_read1 p.aPlane ((yCbCrSize (rotateBounds p.ycbcr.rect op) sr').1) p.aStride
      p.ycbcr.rect.Dx p.ycbcr.rect.Dy (rotateBounds p.ycbcr.rect op).Dx
      (rotateBounds p.ycbcr.rect op).Dy x y
      ((atMap p.ycbcr.rect op x y).1 - p.ycbcr.rect.minX)
      ((atMap p.ycbcr.rect op x y).2 - p.ycbcr.rect.minY)
      ((fastNYCbCrA p op sr').aOffset x y)
      (p.aOffset (atMap p.ycbcr.rect op x y).1 (atMap p.ycbcr.rect op x y).2) op hop
      (yCbCrSize_w (rotateBounds p.ycbcr.rect op) sr')
      (rotateBounds_Dx p.ycbcr.rect op) (rotateBounds_Dy p.ycbcr.rect op) hx0 hx1 hy0 hy1
      (invMap_atMap p.ycbcr.rect op hop x y)
    · show (y - (rotateBounds p.ycbcr.rect op).minY) *
          (yCbCrSize (rotateBounds p.ycbcr.rect op) sr').1 +
          (x - (rotateBounds p.ycbcr.rect op).minX) =
        y * (rotateBounds p.ycbcr.rect op).Dx + x
      rw [rotateBounds_minX, rotateBounds_minY, yCbCrSize_w]
      ring
    · show (_ - p.ycbcr.rect.minY) * p.aStride + (_ - p.ycbcr.rect.minX) = _
      ring
  unfold NYCbCrA.atBytes
  rw [if_pos (show (fastNYCbCrA p op sr').ycbcr.rect.Mem x y from hm), if_pos hm']
  have e1 : (fastNYCbCrA p op sr').ycbcr = fastYCbCr p.ycbcr op sr' := rfl
  rw [e1, hY, hCb, hCr, hA]

end rotateflip

namespace rotateflip

set_option maxHeartbeats 800000 in
/-- Cross-path equivalence at the pixel level: for any source (planar YCbCr
layouts restricted to non-negative bounds), the image `Image` returns reads
identically to the lazy `rotateFlipImage` view wrapped around the same
source, at every coordinate of the shared bounds. -/
theorem image_atBytes_equiv (src : AnyImage) (op : Int) (hnn : ycbcrNonneg src)
    (x y : Int) (hm : ((AnyImage.view src (sanitize op)).bounds).Mem x y)
    (hop0 : sanitize op ≠ 0) :
    (Image src op).atBytes x y = (AnyImage.view src (sanitize op)).atBytes x y := by
  have hop : sanitize op < 8 := by
    unfold sanitize
    omega
  simp only [Image]
  rw [if_neg hop0]
  cases src with
  | view s o2 => rfl
  | base img =>
      cases img with
      | alpha p =>
          simp only [fastPath]
          rw [view_atBytes]
          simpa using fastPacked_atBytes p 1 one_pos (sanitize op) hop x y hm
      | alpha16 p =>
          simp only [fastPath]
          rw [view_atBytes]
          simpa using fastPacked_atBytes p 2 two_pos (sanitize op) hop x y hm
      | cmyk p =>
          simp only [fastPath]
          rw [view_atBytes]
          simpa using fastPacked_atBytes p 4 four_pos (sanitize op) hop x y hm
      | gray p =>
          simp only [fastPath]
          rw [view_atBytes]
          simpa using fastPacked_atBytes p 1 one_pos (sanitize op) hop x y hm
      | gray16 p =>
          simp only [fastPath]
          rw [view_atBytes]
          simpa using fastPacked_atBytes p 2 two_pos (sanitize op) hop x y hm
      | nrgba p =>
          simp only [fastPath]
          rw [view_atBytes]
          simpa using fastPacked_atBytes p 4 four_pos (sanitize op) hop x y hm
      | nrgba64 p =>
          simp only [fastPath]
          rw [view_atBytes]
          simpa using fastPacked_atBytes p 8 (by norm_num) (sanitize op) hop x y hm
      | rgba p =>
          simp only [fastPath]
          rw [view_atBytes]
          simpa using fastPacked_atBytes p 4 four_pos (sanitize op) hop x y hm
      | rgba64 p =>
          simp only [fastPath]
          rw [view_atBytes]
          simpa using fastPacked_atBytes p 8 (by norm_num) (sanitize op) hop x y hm
      | paletted p pal =>
          simp only [fastPath]
          rw [view_atBytes]
          have key := fastPacked_atBytes p 1 one_pos (sanitize op) hop x y hm
          have hm2 := atMap_mem p.rect (sanitize op) hop x y hm
          unfold Packed.atBytes at key
          rw [if_pos (show (fastPacked p ((1 : Nat) : Int) (sanitize op)).rect.Mem x y from hm),
            if_pos hm2] at key
          simp only [show List.range 1 = [0] from rfl, List.map_cons, List.map_nil, List.cons.injEq, and_true,
            Nat.cast_zero, add_zero] at key
          show (GoImage.paletted (fastPacked p 1 (sanitize op)) pal).atBytes x y =
            (GoImage.paletted p pal).atBytes (atMap p.rect (sanitize op) x y).1
              (atMap p.rect (sanitize op) x y).2
          simp only [GoImage.atBytes]
          by_cases hpal : pal = []
          · rw [if_pos hpal, if_pos hpal]
          · rw [if_neg hpal, if_neg hpal,
              if_pos (show (fastPacked p (1 : Int) (sanitize op)).rect.Mem x y from hm),
              if_pos hm2]
            exact congrArg (paletteBytes pal) (by simpa using key)
      | ycbcr p =>
          rcases hr : rotateYCbCrSubsampleRatio p.subsampleRatio p.rect (sanitize op) with _ | sr'
          · simp only [fastPath, hr]
          · simp only [fastPath, hr]
            rw [view_atBytes]
            exact fastYCbCr_atBytes p (sanitize op) hop sr' hr hnn.1 hnn.2 x y hm
      | nycbcra p =>
          rcases hr : rotateYCbCrSubsampleRatio p.ycbcr.subsampleRatio p.ycbcr.rect (sanitize op)
            with _ | sr'
          · simp only [fastPath, hr]
          · simp only [fastPath, hr]
            rw [view_atBytes]
            exact fastNYCbCrA_atBytes p (sanitize op) hop sr' hr hnn.1 hnn.2 x y hm

end rotateflip

namespace rotateflip

theorem image_at (src : AnyImage) (op : Int) (hnn : ycbcrNonneg src)
    (x y : Int) (hm : (rotateBounds src.bounds (sanitize op)).Mem x y)
    (h0 : sanitize op ≠ 0) :
    (Image src op).atBytes x y =
      src.atBytes (atMap src.bounds (sanitize op) x y).1
        (atMap src.bounds (sanitize op) x y).2 := by
  rw [image_atBytes_equiv src op hnn x y hm h0, view_atBytes]

theorem ycbcrNonneg_image (src : AnyImage) (op : Int) (hnn : ycbcrNonneg src) :
    ycbcrNonneg (Image src op) := by
  unfold Image
  by_cases h0 : sanitize op = 0
  · simp only [h0, if_pos rfl]
    exact hnn
  · rw [if_neg h0]
    cases src with
    | view s o => trivial
    | base img =>
        cases img with
        | ycbcr p =>
            rcases hr : rotateYCbCrSubsampleRatio p.subsampleRatio p.rect (sanitize op)
              with _ | sr'
            · simp only [fastPath, hr]
              trivial
            · simp only [fastPath, hr]
              show 0 ≤ (fastYCbCr p (sanitize op) sr').rect.minX ∧
                0 ≤ (fastYCbCr p (sanitize op) sr').rect.minY
              show 0 ≤ (rotateBounds p.rect (sanitize op)).minX ∧
                0 ≤ (rotateBounds p.rect (sanitize op)).minY
              rw [rotateBounds_minX, rotateBounds_minY]
              exact ⟨le_refl 0, le_refl 0⟩
        | nycbcra p =>
            rcases hr : rotateYCbCrSubsampleRatio p.ycbcr.subsampleRatio p.ycbcr.rect (sanitize op)
              with _ | sr'
            · simp only [fastPath, hr]
              trivial
            · simp only [fastPath, hr]
              show 0 ≤ (rotateBounds p.ycbcr.rect (sanitize op)).minX ∧
                0 ≤ (rotateBounds p.ycbcr.rect (sanitize op)).minY
              rw [rotateBounds_minX, rotateBounds_minY]
              exact ⟨le_refl 0, le_refl 0⟩
        | alpha p => trivial
        | alpha16 p => trivial
        | cmyk p => trivial
        | gray p => trivial
        | gray16 p => trivial
        | nrgba p => trivial
        | nrgba64 p => trivial
        | rgba p => trivial
        | rgba64 p => trivial
        | paletted p pal => trivial

/-- C1 counterexample: a 4:2:0 YCbCr image on the aligned rectangle
(-4,0)-(4,2) takes the fast path under FlipX, yet its pixel (4,0) differs
from the slow path's: Go's truncating division groups negative columns into
chroma blocks irregularly, which the uniform block copy of the fast path
cannot reproduce. -/
theorem C1_cex :
    (imageSlow (.base (.ycbcr cexYCbCr)) 4).bounds.Mem 4 0 ∧
    (Image (.base (.ycbcr cexYCbCr)) 4).atBytes 4 0 ≠
      (imageSlow (.base (.ycbcr cexYCbCr)) 4).atBytes 4 0 := by
  decide

/-- C1 (amended): for every source image — with YCbCr/NYCbCrA planar sources
restricted to bounds in the non-negative quadrant — and every operation code,
the image returned by `Image` (the fast path where it applies) has the same
bounds as the result of routing the same source through the lazy slow path,
and reads bit-identically through the `At` accessor at every coordinate of
those bounds. -/
theorem C1_thm (src : AnyImage) (op : Int) (hnn : ycbcrNonneg src) :
    (Image src op).bounds = (imageSlow src op).bounds ∧
    ∀ x y : Int, (imageSlow src op).bounds.Mem x y →
      (Image src op).atBytes x y = (imageSlow src op).atBytes x y := by
  by_cases h0 : sanitize op = 0
  · have e1 : Image src op = src := by
      unfold Image
      rw [if_pos h0]
    have e2 : imageSlow src op = src := by
      unfold imageSlow
      rw [if_pos h0]
    rw [e1, e2]
    exact ⟨rfl, fun _ _ _ => rfl⟩
  · have e2 : imageSlow src op = .view src (sanitize op) := by
      unfold imageSlow
      rw [if_neg h0]
    rw [e2]
    constructor
    · rw [image_bounds src op h0]
      rfl
    · intro x y hm
      exact image_atBytes_equiv src op hnn x y hm h0

/-- C1 witness: fast and slow paths agree on a concrete 3×2 grayscale image
under FlipX at pixel (1,0). -/
theorem C1_wit :
    ycbcrNonneg exGray ∧
    (Image exGray 4).bounds = (imageSlow exGray 4).bounds ∧
    (Image exGray 4).atBytes 1 0 = (imageSlow exGray 4).atBytes 1 0 :=
  ⟨trivial, (C1_thm exGray 4 trivial).1, (C1_thm exGray 4 trivial).2 1 0 (by decide)⟩

end rotateflip

namespace rotateflip

theorem sanitize_lt (op : Int) : sanitize op < 8 := by
  unfold sanitize
  omega

theorem image_at2 (s : AnyImage) (o : Int) (hnn : ycbcrNonneg s) (h0 : sanitize o ≠ 0)
    (x y : Int) (hm : (Image s o).bounds.Mem x y) :
    (Image s o).atBytes x y =
      s.atBytes (atMap s.bounds (sanitize o) x y).1 (atMap s.bounds (sanitize o) x y).2 ∧
    s.bounds.Mem (atMap s.bounds (sanitize o) x y).1 (atMap s.bounds (sanitize o) x y).2 := by
  have hm' : (rotateBounds s.bounds (sanitize o)).Mem x y := by
    rw [← image_bounds s o h0]
    exact hm
  exact ⟨image_at s o hnn x y hm' h0, atMap_mem _ _ (sanitize_lt o) x y hm'⟩

/-- C8 counterexample: for the 4:2:0 YCbCr source on the aligned rectangle
(-4,0)-(4,2), applying FlipXY twice does not restore the source's pixel
values: the result's pixel (1,0) — which corresponds to source pixel
(-3,0) — differs from the source's. -/
theorem C8_cex :
    (Image (Image (.base (.ycbcr cexYCbCr)) 2) 2).bounds.Mem 1 0 ∧
    (Image (Image (.base (.ycbcr cexYCbCr)) 2) 2).atBytes 1 0 ≠
      (AnyImage.base (.ycbcr cexYCbCr)).atBytes
        ((AnyImage.base (.ycbcr cexYCbCr)).bounds.minX + 1)
        ((AnyImage.base (.ycbcr cexYCbCr)).bounds.minY + 0) := by
  decide

/-- C8 (amended): for every source image — with planar YCbCr/NYCbCrA sources
restricted to bounds in the non-negative quadrant — applying `Image` with
FlipXY (code 2) twice yields an image with the source's dimensions and
zero-based bounds whose pixel at every (x, y) of those bounds equals the
source's pixel at (minX + x, minY + y); applying Rotate90 (code 1) four
times likewise restores the pixel values and the dimensions. -/
theorem C8_thm (src : AnyImage) (hnn : ycbcrNonneg src) :
    ((Image (Image src 2) 2).bounds =
        ⟨0, 0, src.bounds.Dx, src.bounds.Dy⟩ ∧
      ∀ x y : Int, (Image (Image src 2) 2).bounds.Mem x y →
        (Image (Image src 2) 2).atBytes x y =
          src.atBytes (src.bounds.minX + x) (src.bounds.minY + y)) ∧
    ((Image (Image (Image (Image src 1) 1) 1) 1).bounds =
        ⟨0, 0, src.bounds.Dx, src.bounds.Dy⟩ ∧
      ∀ x y : Int, (Image (Image (Image (Image src 1) 1) 1) 1).bounds.Mem x y →
        (Image (Image (Image (Image src 1) 1) 1) 1).atBytes x y =
          src.atBytes (src.bounds.minX + x) (src.bounds.minY + y)) := by
  have h2 : sanitize 2 ≠ 0 := by decide
  have h1 : sanitize 1 ≠ 0 := by decide
  have hs2 : sanitize 2 = 2 := rfl
  have hs1 : sanitize 1 = 1 := rfl
  constructor
  · have hnnA : ycbcrNonneg (Image src 2) := ycbcrNonneg_image src 2 hnn
    have eA : (Image src 2).bounds = ⟨0, 0, src.bounds.Dx, src.bounds.Dy⟩ := by
      rw [image_bounds src 2 h2, hs2, rotateBounds_ite]
      norm_num
    have eB : (Image (Image src 2) 2).bounds = ⟨0, 0, src.bounds.Dx, src.bounds.Dy⟩ := by
      rw [image_bounds _ 2 h2, hs2, rotateBounds_ite, eA]
      simp only [Rect.Dx, Rect.Dy, Rect.mk.injEq]
      norm_num
    refine ⟨eB, ?_⟩
    intro x y hm
    obtain ⟨rB, mA⟩ := image_at2 _ 2 hnnA h2 x y hm
    rw [rB]
    obtain ⟨rA, _⟩ := image_at2 _ 2 hnn h2 _ _ mA
    rw [rA, hs2, eA]
    simp only [atMap, Rect.Dx, Rect.Dy]
    exact congrArg₂ _ (by ring) (by ring)
  · have hnn1 : ycbcrNonneg (Image src 1) := ycbcrNonneg_image src 1 hnn
    have hnn2 : ycbcrNonneg (Image (Image src 1) 1) := ycbcrNonneg_image _ 1 hnn1
    have hnn3 : ycbcrNonneg (Image (Image (Image src 1) 1) 1) := ycbcrNonneg_image _ 1 hnn2
    have e1 : (Image src 1).bounds = ⟨0, 0, src.bounds.Dy, src.bounds.Dx⟩ := by
      rw [image_bounds src 1 h1, hs1, rotateBounds_ite]
      norm_num
    have e2 : (Image (Image src 1) 1).bounds = ⟨0, 0, src.bounds.Dx, src.bounds.Dy⟩ := by
      rw [image_bounds _ 1 h1, hs1, rotateBounds_ite, e1]
      simp only [Rect.Dx, Rect.Dy, Rect.mk.injEq]
      norm_num
    have e3 :
        (Image (Image (Image src 1) 1) 1).bounds = ⟨0, 0, src.bounds.Dy, src.bounds.Dx⟩ := by
      rw [image_bounds _ 1 h1, hs1, rotateBounds_ite, e2]
      simp only [Rect.Dx, Rect.Dy, Rect.mk.injEq]
      norm_num
    have e4 : (Image (Image (Image (Image src 1) 1) 1) 1).bounds =
        ⟨0, 0, src.bounds.Dx, src.bounds.Dy⟩ := by
      rw [image_bounds _ 1 h1, hs1, rotateBounds_ite, e3]
      simp only [Rect.Dx, Rect.Dy, Rect.mk.injEq]
      norm_num
    refine ⟨e4, ?_⟩
    intro x y hm
    obtain ⟨r4, m3⟩ := image_at2 _ 1 hnn3 h1 x y hm
    rw [r4]
    obtain ⟨r3, m2⟩ := image_at2 _ 1 hnn2 h1 _ _ m3
    rw [r3]
    obtain ⟨r2, m1⟩ := image_at2 _ 1 hnn1 h1 _ _ m2
    rw [r2]
    obtain ⟨r1, _⟩ := image_at2 _ 1 hnn h1 _ _ m1
    rw [r1, hs1, e1, e2, e3]
    simp only [atMap, Rect.Dx, Rect.Dy]
    exact congrArg₂ _ (by ring) (by ring)

/-- C8 witness: on a concrete 3×2 grayscale image, FlipXY twice and
Rotate90 four times restore the dimensions and the pixel value at (1,0). -/
theorem C8_wit :
    ycbcrNonneg exGray ∧
    (Image (Image exGray 2) 2).bounds = ⟨0, 0, 3, 2⟩ ∧
    (Image (Image exGray 2) 2).atBytes 1 0 = exGray.atBytes 1 0 ∧
    (Image (Image (Image (Image exGray 1) 1) 1) 1).atBytes 1 0 = exGray.atBytes 1 0 := by
  refine ⟨trivial, ?_, ?_, ?_⟩
  · exact ((C8_thm exGray trivial).1).1.trans (by decide)
  · exact (((C8_thm exGray trivial).1).2 1 0 (by decide)).trans (by decide)
  · exact (((C8_thm exGray trivial).2).2 1 0 (by decide)).trans (by decide)

end rotateflip

namespace rotateflip

/-- C3 witness: the resolver sends a rotational operation (Rotate90) on a
4:1:1 or 4:1:0 image on rectangle (0,0)-(4,2) to the lazy fallback path. -/
theorem C3_wit :
    (1 : Nat) % 2 = 1 ∧
    rotateYCbCrSubsampleRatio .sr411 ⟨0, 0, 4, 2⟩ 1 = none ∧
    rotateYCbCrSubsampleRatio .sr410 ⟨0, 0, 4, 2⟩ 1 = none :=
  ⟨by decide, ((C3_thm ⟨0, 0, 4, 2⟩ 1).2.2 (by decide)).1,
    ((C3_thm ⟨0, 0, 4, 2⟩ 1).2.2 (by decide)).2⟩

end rotateflip

namespace imageutil

open rotateflip

theorem upsamplePixLoop_ctr (dcb dcr scb scr : Buf) (srcRow sx mX dstPix x0 : Int) (n : Nat) :
    (upsamplePixLoop dcb dcr scb scr srcRow sx mX dstPix x0 n).2.2 = dstPix + (n : Int) := by
  induction n generalizing dcb dcr dstPix x0 with
  | zero => simp [upsamplePixLoop]
  | succ n ih =>
      simp only [upsamplePixLoop]
      rw [ih]
      push_cast
      ring

theorem upsamplePixLoop_get (dcb dcr scb scr : Buf) (srcRow sx mX dstPix x0 : Int) (n : Nat)
    (a : Int) :
    ((upsamplePixLoop dcb dcr scb scr srcRow sx mX dstPix x0 n).1 a =
      if dstPix ≤ a ∧ a < dstPix + (n : Int) then
        scb (srcRow + (godiv (x0 + (a - dstPix)) sx - godiv mX sx))
      else dcb a) ∧
    ((upsamplePixLoop dcb dcr scb scr srcRow sx mX dstPix x0 n).2.1 a =
      if dstPix ≤ a ∧ a < dstPix + (n : Int) then
        scr (srcRow + (godiv (x0 + (a - dstPix)) sx - godiv mX sx))
      else dcr a) := by
  induction n generalizing dcb dcr dstPix x0 with
  | zero =>
      simp only [upsamplePixLoop]
      rw [if_neg (show ¬(dstPix ≤ a ∧ a < dstPix + ((0 : Nat) : Int)) from by omega),
        if_neg (show ¬(dstPix ≤ a ∧ a < dstPix + ((0 : Nat) : Int)) from by omega)]
      exact ⟨rfl, rfl⟩
  | succ n ih =>
      simp only [upsamplePixLoop]
      obtain ⟨ih1, ih2⟩ := ih
        (upd dcb dstPix (scb (srcRow + (godiv x0 sx - godiv mX sx))))
        (upd dcr dstPix (scr (srcRow + (godiv x0 sx - godiv mX sx))))
        (dstPix + 1) (x0 + 1)
      rw [ih1, ih2]
      by_cases h1 : a = dstPix
      · subst h1
        rw [if_neg (show ¬(a + 1 ≤ a ∧ a < a + 1 + (n : Int)) from by omega),
          if_neg (show ¬(a + 1 ≤ a ∧ a < a + 1 + (n : Int)) from by omega),
          if_pos (show a ≤ a ∧ a < a + ((n + 1 : Nat) : Int) from by
            constructor
            · omega
            · push_cast
              omega),
          if_pos (show a ≤ a ∧ a < a + ((n + 1 : Nat) : Int) from by
            constructor
            · omega
            · push_cast
              omega)]
        simp only [upd, if_true]
        rw [show x0 + (a - a) = x0 from by ring]
        exact ⟨rfl, rfl⟩
      · by_cases h2 : dstPix + 1 ≤ a ∧ a < dstPix + 1 + (n : Int)
        · rw [if_pos h2, if_pos h2,
            if_pos (show dstPix ≤ a ∧ a < dstPix + ((n + 1 : Nat) : Int) from by
              push_cast
              omega),
            if_pos (show dstPix ≤ a ∧ a < dstPix + ((n + 1 : Nat) : Int) from by
              push_cast
              omega),
            show x0 + 1 + (a - (dstPix + 1)) = x0 + (a - dstPix) from by ring]
          exact ⟨rfl, rfl⟩
        · rw [if_neg h2, if_neg h2,
            if_neg (show ¬(dstPix ≤ a ∧ a < dstPix + ((n + 1 : Nat) : Int)) from by
              push_cast
              omega),
            if_neg (show ¬(dstPix ≤ a ∧ a < dstPix + ((n + 1 : Nat) : Int)) from by
              push_cast
              omega)]
          simp only [upd]
          rw [if_neg h1, if_neg h1]
          exact ⟨rfl, rfl⟩

theorem upsampleRowLoop_frame (dcb dcr scb scr : Buf) (cs sx sy : Int) (r : Rect)
    (dstPix y0 : Int) (n : Nat) (a : Int) :
    a < dstPix →
    (upsampleRowLoop dcb dcr scb scr cs sx sy r dstPix y0 n).1 a = dcb a ∧
    (upsampleRowLoop dcb dcr scb scr cs sx sy r dstPix y0 n).2.1 a = dcr a := by
  induction n generalizing dcb dcr dstPix y0 with
  | zero => intro _; exact ⟨rfl, rfl⟩
  | succ n ih =>
      intro ha
      simp only [upsampleRowLoop]
      obtain ⟨f1, f2⟩ := ih
        (upsamplePixLoop dcb dcr scb scr ((godiv y0 sy - godiv r.minY sy) * cs)
          sx r.minX dstPix r.minX r.Dx.toNat).1
        (upsamplePixLoop dcb dcr scb scr ((godiv y0 sy - godiv r.minY sy) * cs)
          sx r.minX dstPix r.minX r.Dx.toNat).2.1
        (upsamplePixLoop dcb dcr scb scr ((godiv y0 sy - godiv r.minY sy) * cs)
          sx r.minX dstPix r.minX r.Dx.toNat).2.2
        (y0 + 1)
        (by rw [upsamplePixLoop_ctr]; omega)
      rw [f1, f2,
        (upsamplePixLoop_get dcb dcr scb scr ((godiv y0 sy - godiv r.minY sy) * cs)
          sx r.minX dstPix r.minX r.Dx.toNat a).1,
        (upsamplePixLoop_get dcb dcr scb scr ((godiv y0 sy - godiv r.minY sy) * cs)
          sx r.minX dstPix r.minX r.Dx.toNat a).2,
        if_neg (show ¬(dstPix ≤ a ∧ a < dstPix + (r.Dx.toNat : Int)) from by omega),
        if_neg (show ¬(dstPix ≤ a ∧ a < dstPix + (r.Dx.toNat : Int)) from by omega)]
      exact ⟨rfl, rfl⟩

theorem upsampleRowLoop_get (dcb dcr scb scr : Buf) (cs sx sy : Int) (r : Rect)
    (dstPix y0 : Int) (n : Nat) (x y a : Int) :
    y0 ≤ y → y < y0 + (n : Int) → r.minX ≤ x → x < r.maxX →
    a = dstPix + (y - y0) * r.Dx + (x - r.minX) →
    (upsampleRowLoop dcb dcr scb scr cs sx sy r dstPix y0 n).1 a =
      scb ((godiv y sy - godiv r.minY sy) * cs + (godiv x sx - godiv r.minX sx)) ∧
    (upsampleRowLoop dcb dcr scb scr cs sx sy r dstPix y0 n).2.1 a =
      scr ((godiv y sy - godiv r.minY sy) * cs + (godiv x sx - godiv r.minX sx)) := by
  induction n generalizing dcb dcr dstPix y0 with
  | zero =>
      intro hy1 hy2 _ _ _
      exact absurd hy2 (by omega)
  | succ n ih =>
      intro hy1 hy2 hx1 hx2 ha
      have hDx : r.Dx = r.maxX - r.minX := rfl
      simp only [upsampleRowLoop]
      by_cases hyy : y = y0
      · subst hyy
        have ha' : a = dstPix + (x - r.minX) := by rw [ha]; ring
        obtain ⟨f1, f2⟩ := upsampleRowLoop_frame
          (upsamplePixLoop dcb dcr scb scr ((godiv y sy - godiv r.minY sy) * cs)
            sx r.minX dstPix r.minX r.Dx.toNat).1
          (upsamplePixLoop dcb dcr scb scr ((godiv y sy - godiv r.minY sy) * cs)
            sx r.minX dstPix r.minX r.Dx.toNat).2.1
          scb scr cs sx sy r
          (upsamplePixLoop dcb dcr scb scr ((godiv y sy - godiv r.minY sy) * cs)
            sx r.minX dstPix r.minX r.Dx.toNat).2.2
          (y + 1) n a
          (by rw [upsamplePixLoop_ctr, hDx]; omega)
        rw [f1, f2,
          (upsamplePixLoop_get dcb dcr scb scr ((godiv y sy - godiv r.minY sy) * cs)
            sx r.minX dstPix r.minX r.Dx.toNat a).1,
          (upsamplePixLoop_get dcb dcr scb scr ((godiv y sy - godiv r.minY sy) * cs)
            sx r.minX dstPix r.minX r.Dx.toNat a).2,
          if_pos (show dstPix ≤ a ∧ a < dstPix + (r.Dx.toNat : Int) from
            by rw [hDx]; omega),
          if_pos (show dstPix ≤ a ∧ a < dstPix + (r.Dx.toNat : Int) from
            by rw [hDx]; omega),
          show r.minX + (a - dstPix) = x from by omega]
        exact ⟨rfl, rfl⟩
      · have hDxnn : (r.Dx.toNat : Int) = r.Dx := by rw [hDx]; omega
        obtain ⟨g1, g2⟩ := ih
          (upsamplePixLoop dcb dcr scb scr ((godiv y0 sy - godiv r.minY sy) * cs)
            sx r.minX dstPix r.minX r.Dx.toNat).1
          (upsamplePixLoop dcb dcr scb scr ((godiv y0 sy - godiv r.minY sy) * cs)
            sx r.minX dstPix r.minX r.Dx.toNat).2.1
          (upsamplePixLoop dcb dcr scb scr ((godiv y0 sy - godiv r.minY sy) * cs)
            sx r.minX dstPix r.minX r.Dx.toNat).2.2
          (y0 + 1)
          (by omega) (by omega) hx1 hx2
          (by rw [upsamplePixLoop_ctr, hDxnn, ha]; ring)
        exact ⟨g1, g2⟩

end imageutil

namespace imageutil

open rotateflip

theorem godiv_one (a : Int) : godiv a 1 = a := Int.tdiv_one a

theorem upsample_eq_loop (q d : YCbCr) (sx sy : Int)
    (h : subsampleRatios q.subsampleRatio = (sx, sy)) (hsx : ¬ sx = 0) :
    (upsample q d).cbPlane =
      (upsampleRowLoop d.cbPlane d.crPlane q.cbPlane q.crPlane q.cStride
        sx sy q.rect 0 q.rect.minY q.rect.Dy.toNat).1 ∧
    (upsample q d).crPlane =
      (upsampleRowLoop d.cbPlane d.crPlane q.cbPlane q.crPlane q.cStride
        sx sy q.rect 0 q.rect.minY q.rect.Dy.toNat).2.1 := by
  simp only [upsample]
  rw [h, if_neg (show ¬((sx, sy).1 = 0) from hsx)]
  exact ⟨rfl, rfl⟩

theorem upsample_keeps (q d : YCbCr) :
    (upsample q d).rect = d.rect ∧ (upsample q d).cStride = d.cStride ∧
    (upsample q d).subsampleRatio = d.subsampleRatio := by
  by_cases h : (subsampleRatios q.subsampleRatio).1 = 0 <;> simp [upsample, h]

theorem upsample_chroma (q d : YCbCr) (x y : Int) (hm : q.rect.Mem x y) :
    (upsample q d).cbPlane ((y - q.rect.minY) * q.rect.Dx + (x - q.rect.minX)) =
      q.cbPlane (q.cOffset x y) ∧
    (upsample q d).crPlane ((y - q.rect.minY) * q.rect.Dx + (x - q.rect.minX)) =
      q.crPlane (q.cOffset x y) := by
  obtain ⟨hx1, hx2, hy1, hy2⟩ := hm
  have hDy : q.rect.Dy = q.rect.maxY - q.rect.minY := rfl
  rcases hsr : q.subsampleRatio
  case sr444 =>
    simp only [YCbCr.cOffset, hsr]
    obtain ⟨w1, w2⟩ := upsampleRowLoop_get d.cbPlane d.crPlane q.cbPlane q.crPlane
      q.cStride 1 1 q.rect 0 q.rect.minY q.rect.Dy.toNat x y
      ((y - q.rect.minY) * q.rect.Dx + (x - q.rect.minX))
      hy1 (by rw [hDy]; omega) hx1 hx2 (by ring)
    refine ⟨?_, ?_⟩
    · rw [(upsample_eq_loop q d 1 1 (by rw [hsr]; rfl) (by norm_num)).1, w1]
      simp only [godiv_one]
    · rw [(upsample_eq_loop q d 1 1 (by rw [hsr]; rfl) (by norm_num)).2, w2]
      simp only [godiv_one]
  case sr422 =>
    simp only [YCbCr.cOffset, hsr]
    obtain ⟨w1, w2⟩ := upsampleRowLoop_get d.cbPlane d.crPlane q.cbPlane q.crPlane
      q.cStride 2 1 q.rect 0 q.rect.minY q.rect.Dy.toNat x y
      ((y - q.rect.minY) * q.rect.Dx + (x - q.rect.minX))
      hy1 (by rw [hDy]; omega) hx1 hx2 (by ring)
    refine ⟨?_, ?_⟩
    · rw [(upsample_eq_loop q d 2 1 (by rw [hsr]; rfl) (by norm_num)).1, w1]
      simp only [godiv_one]
    · rw [(upsample_eq_loop q d 2 1 (by rw [hsr]; rfl) (by norm_num)).2, w2]
      simp only [godiv_one]
  case sr420 =>
    simp only [YCbCr.cOffset, hsr]
    obtain ⟨w1, w2⟩ := upsampleRowLoop_get d.cbPlane d.crPlane q.cbPlane q.crPlane
      q.cStride 2 2 q.rect 0 q.rect.minY q.rect.Dy.toNat x y
      ((y - q.rect.minY) * q.rect.Dx + (x - q.rect.minX))
      hy1 (by rw [hDy]; omega) hx1 hx2 (by ring)
    exact ⟨by rw [(upsample_eq_loop q d 2 2 (by rw [hsr]; rfl) (by norm_num)).1, w1],
      by rw [(upsample_eq_loop q d 2 2 (by rw [hsr]; rfl) (by norm_num)).2, w2]⟩
  case sr440 =>
    simp only [YCbCr.cOffset, hsr]
    obtain ⟨w1, w2⟩ := upsampleRowLoop_get d.cbPlane d.crPlane q.cbPlane q.crPlane
      q.cStride 1 2 q.rect 0 q.rect.minY q.rect.Dy.toNat x y
      ((y - q.rect.minY) * q.rect.Dx + (x - q.rect.minX))
      hy1 (by rw [hDy]; omega) hx1 hx2 (by ring)
    refine ⟨?_, ?_⟩
    · rw [(upsample_eq_loop q d 1 2 (by rw [hsr]; rfl) (by norm_num)).1, w1]
      simp only [godiv_one]
    · rw [(upsample_eq_loop q d 1 2 (by rw [hsr]; rfl) (by norm_num)).2, w2]
      simp only [godiv_one]
  case sr411 =>
    simp only [YCbCr.cOffset, hsr]
    obtain ⟨w1, w2⟩ := upsampleRowLoop_get d.cbPlane d.crPlane q.cbPlane q.crPlane
      q.cStride 4 1 q.rect 0 q.rect.minY q.rect.Dy.toNat x y
      ((y - q.rect.minY) * q.rect.Dx + (x - q.rect.minX))
      hy1 (by rw [hDy]; omega) hx1 hx2 (by ring)
    refine ⟨?_, ?_⟩
    · rw [(upsample_eq_loop q d 4 1 (by rw [hsr]; rfl) (by norm_num)).1, w1]
      simp only [godiv_one]
    · rw [(upsample_eq_loop q d 4 1 (by rw [hsr]; rfl) (by norm_num)).2, w2]
      simp only [godiv_one]
  case sr410 =>
    simp only [YCbCr.cOffset, hsr]
    obtain ⟨w1, w2⟩ := upsampleRowLoop_get d.cbPlane d.crPlane q.cbPlane q.crPlane
      q.cStride 4 2 q.rect 0 q.rect.minY q.rect.Dy.toNat x y
      ((y - q.rect.minY) * q.rect.Dx + (x - q.rect.minX))
      hy1 (by rw [hDy]; omega) hx1 hx2 (by ring)
    exact ⟨by rw [(upsample_eq_loop q d 4 2 (by rw [hsr]; rfl) (by norm_num)).1, w1],
      by rw [(upsample_eq_loop q d 4 2 (by rw [hsr]; rfl) (by norm_num)).2, w2]⟩

theorem upsample_atBytes (q d : YCbCr) (hr : d.rect = q.rect) (hcs : d.cStride = q.rect.Dx)
    (hs : d.subsampleRatio = .sr444) (x y : Int) (hm : q.rect.Mem x y) :
    chromaOf ((upsample q d).atBytes x y) =
      [q.cbPlane (q.cOffset x y), q.crPlane (q.cOffset x y)] := by
  obtain ⟨k1, k2, k3⟩ := upsample_keeps q d
  have hmem : (upsample q d).rect.Mem x y := by
    rw [k1, hr]
    exact hm
  have hco : (upsample q d).cOffset x y =
      (y - q.rect.minY) * q.rect.Dx + (x - q.rect.minX) := by
    unfold YCbCr.cOffset
    rw [k3, hs, k1, hr, k2, hcs]
  obtain ⟨u1, u2⟩ := upsample_chroma q d x y hm
  simp only [YCbCr.atBytes]
  rw [if_pos hmem, hco]
  simp only [chromaOf]
  rw [u1, u2]

theorem upsampleA_atBytes (q d : YCbCr) (ap : Buf) (ast : Int)
    (hr : d.rect = q.rect) (hcs : d.cStride = q.rect.Dx) (hs : d.subsampleRatio = .sr444)
    (x y : Int) (hm : q.rect.Mem x y) :
    chromaOf (NYCbCrA.atBytes ⟨upsample q d, ap, ast⟩ x y) =
      [q.cbPlane (q.cOffset x y), q.crPlane (q.cOffset x y)] := by
  obtain ⟨k1, k2, k3⟩ := upsample_keeps q d
  have hmem : (upsample q d).rect.Mem x y := by
    rw [k1, hr]
    exact hm
  have hco : (upsample q d).cOffset x y =
      (y - q.rect.minY) * q.rect.Dx + (x - q.rect.minX) := by
    unfold YCbCr.cOffset
    rw [k3, hs, k1, hr, k2, hcs]
  obtain ⟨u1, u2⟩ := upsample_chroma q d x y hm
  simp only [NYCbCrA.atBytes]
  rw [if_pos hmem, hco]
  simp only [chromaOf]
  rw [u1, u2]

theorem YCbCrUpsample_chroma (p : YCbCr) (hsr : p.subsampleRatio ≠ .sr444)
    (x y : Int) (hm : p.rect.Mem x y) :
    chromaOf ((YCbCrUpsample p).atBytes x y) =
      [p.cbPlane (p.cOffset x y), p.crPlane (p.cOffset x y)] := by
  unfold YCbCrUpsample
  rw [if_neg hsr]
  exact upsample_atBytes p
    { newYCbCr p.rect .sr444 with
      yPlane := resample (newYCbCr p.rect .sr444).yPlane (newYCbCr p.rect .sr444).yStride
        p.yPlane p.yStride p.rect.Dy }
    rfl rfl rfl x y hm

theorem NYCbCrAUpsample_chroma (p : NYCbCrA) (hsr : p.ycbcr.subsampleRatio ≠ .sr444)
    (x y : Int) (hm : p.ycbcr.rect.Mem x y) :
    chromaOf ((NYCbCrAUpsample p).atBytes x y) =
      [p.ycbcr.cbPlane (p.ycbcr.cOffset x y), p.ycbcr.crPlane (p.ycbcr.cOffset x y)] := by
  unfold NYCbCrAUpsample
  rw [if_neg hsr]
  exact upsampleA_atBytes p.ycbcr
    { (newNYCbCrA p.ycbcr.rect .sr444).ycbcr with
      yPlane := resample (newNYCbCrA p.ycbcr.rect .sr444).ycbcr.yPlane
        (newNYCbCrA p.ycbcr.rect .sr444).ycbcr.yStride p.ycbcr.yPlane
        p.ycbcr.yStride p.ycbcr.rect.Dy }
    (resample (newNYCbCrA p.ycbcr.rect .sr444).aPlane (newNYCbCrA p.ycbcr.rect .sr444).aStride
      p.aPlane p.aStride p.ycbcr.rect.Dy)
    (newNYCbCrA p.ycbcr.rect .sr444).aStride
    rfl rfl rfl x y hm

theorem subImage_chroma (p : YCbCr) (r : Rect) (x y : Int) :
    (p.subImage r).rect.Mem x y →
    ((p.subImage r).cbPlane ((p.subImage r).cOffset x y) = p.cbPlane (p.cOffset x y) ∧
      (p.subImage r).crPlane ((p.subImage r).cOffset x y) = p.crPlane (p.cOffset x y) ∧
      p.rect.Mem x y ∧ (p.subImage r).subsampleRatio = p.subsampleRatio) := by
  simp only [YCbCr.subImage]
  by_cases he : (r.inter p.rect).maxX ≤ (r.inter p.rect).minX ∨
      (r.inter p.rect).maxY ≤ (r.inter p.rect).minY
  · rw [if_pos he]
    intro hm
    exfalso
    simp only [Rect.Mem] at hm
    omega
  · rw [if_neg he]
    intro hm
    have hm2 : (r.inter p.rect).Mem x y := hm
    have hp : p.rect.Mem x y := by
      simp only [Rect.inter] at hm2
      by_cases ht : min r.maxX p.rect.maxX ≤ max r.minX p.rect.minX ∨
          min r.maxY p.rect.maxY ≤ max r.minY p.rect.minY
      · rw [if_pos ht] at hm2
        simp only [Rect.Mem] at hm2
        exfalso
        omega
      · rw [if_neg ht] at hm2
        simp only [Rect.Mem] at hm2 ⊢
        omega
    refine ⟨?_, ?_, hp, rfl⟩
    · rcases hq : p.subsampleRatio <;>
        simp only [YCbCr.cOffset, hq] <;>
        (congr 1; ring)
    · rcases hq : p.subsampleRatio <;>
        simp only [YCbCr.cOffset, hq] <;>
        (congr 1; ring)

theorem subImageA_chroma (q : NYCbCrA) (r : Rect) (x y : Int) :
    (q.subImage r).ycbcr.rect.Mem x y →
    ((q.subImage r).ycbcr.cbPlane ((q.subImage r).ycbcr.cOffset x y) =
        q.ycbcr.cbPlane (q.ycbcr.cOffset x y) ∧
      (q.subImage r).ycbcr.crPlane ((q.subImage r).ycbcr.cOffset x y) =
        q.ycbcr.crPlane (q.ycbcr.cOffset x y) ∧
      q.ycbcr.rect.Mem x y ∧
      (q.subImage r).ycbcr.subsampleRatio = q.ycbcr.subsampleRatio) := by
  simp only [NYCbCrA.subImage]
  by_cases he : (r.inter q.ycbcr.rect).maxX ≤ (r.inter q.ycbcr.rect).minX ∨
      (r.inter q.ycbcr.rect).maxY ≤ (r.inter q.ycbcr.rect).minY
  · rw [if_pos he]
    intro hm
    exfalso
    simp only [Rect.Mem] at hm
    omega
  · rw [if_neg he]
    intro hm
    have hm2 : (r.inter q.ycbcr.rect).Mem x y := hm
    have hp : q.ycbcr.rect.Mem x y := by
      simp only [Rect.inter] at hm2
      by_cases ht : min r.maxX q.ycbcr.rect.maxX ≤ max r.minX q.ycbcr.rect.minX ∨
          min r.maxY q.ycbcr.rect.maxY ≤ max r.minY q.ycbcr.rect.minY
      · rw [if_pos ht] at hm2
        simp only [Rect.Mem] at hm2
        exfalso
        omega
      · rw [if_neg ht] at hm2
        simp only [Rect.Mem] at hm2 ⊢
        omega
    refine ⟨?_, ?_, hp, rfl⟩
    · rcases hq : q.ycbcr.subsampleRatio <;>
        simp only [YCbCr.cOffset, hq] <;>
        (congr 1; ring)
    · rcases hq : q.ycbcr.subsampleRatio <;>
        simp only [YCbCr.cOffset, hq] <;>
        (congr 1; ring)

/-- C2: for every chroma-subsampled YCbCr (or NYCbCrA) parent image, every
crop rectangle — including crops whose minimum is not aligned to the
subsampling grid — and every pixel (x, y) inside the crop, the chroma values
(Cb, Cr) produced by `YCbCrUpsample` (resp. `NYCbCrAUpsample`) on the crop
at (x, y) equal the chroma values produced by upsampling the full parent
image and reading the same absolute coordinate. -/
theorem C2_thm (p : YCbCr) (q : NYCbCrA) (r : Rect)
    (hp : p.subsampleRatio ≠ .sr444) (hq : q.ycbcr.subsampleRatio ≠ .sr444) :
    (∀ x y : Int, (p.subImage r).rect.Mem x y →
      chromaOf ((YCbCrUpsample (p.subImage r)).atBytes x y) =
        chromaOf ((YCbCrUpsample p).atBytes x y)) ∧
    (∀ x y : Int, (q.subImage r).ycbcr.rect.Mem x y →
      chromaOf ((NYCbCrAUpsample (q.subImage r)).atBytes x y) =
        chromaOf ((NYCbCrAUpsample q).atBytes x y)) := by
  constructor
  · intro x y hm
    obtain ⟨s1, s2, hpm, hsr2⟩ := subImage_chroma p r x y hm
    rw [YCbCrUpsample_chroma (p.subImage r) (by rw [hsr2]; exact hp) x y hm,
      YCbCrUpsample_chroma p hp x y hpm, s1, s2]
  · intro x y hm
    obtain ⟨s1, s2, hpm, hsr2⟩ := subImageA_chroma q r x y hm
    rw [NYCbCrAUpsample_chroma (q.subImage r) (by rw [hsr2]; exact hq) x y hm,
      NYCbCrAUpsample_chroma q hq x y hpm, s1, s2]

/-- C2 witness: concrete 4×2 4:2:2 and 4:2:0 parents with the unaligned
crop rectangle (1,1)-(3,2); the crops upsampled chroma at (1,1) matches
the parents. -/
theorem C2_wit :
    exP.subsampleRatio ≠ .sr444 ∧ exQ.ycbcr.subsampleRatio ≠ .sr444 ∧
    chromaOf ((YCbCrUpsample (exP.subImage exR)).atBytes 1 1) =
      chromaOf ((YCbCrUpsample exP).atBytes 1 1) ∧
    chromaOf ((NYCbCrAUpsample (exQ.subImage exR)).atBytes 1 1) =
      chromaOf ((NYCbCrAUpsample exQ).atBytes 1 1) :=
  ⟨by decide, by decide,
    (C2_thm exP exQ exR (by decide) (by decide)).1 1 1 (by decide),
    (C2_thm exP exQ exR (by decide) (by decide)).2 1 1 (by decide)⟩

end imageutil
